import Mathlib

/-!
# Verification of the elementary lineage-graph engine

A shallow embedding, in Lean 4, of the lineage graph engine implemented in
`lineage/lineage_graph.py` (class `LineageGraph`), together with the pieces of
the third-party data model it manipulates (`sqllineage.models.Schema` /
`Table`, and the networkx graph primitives it calls: `add_node`, `add_edge`,
`remove_node`, `relabel_nodes`, `bfs_tree`, `reverse`, `compose`).

Conventions of the embedding:
* Python strings are Lean `String`s; Python `None` for an optional string is
  `Option.none`.
* The mutable `self` object is threaded explicitly as a `LineageState` value;
  every method that mutates `self` becomes a function returning the new state.
* The networkx `DiGraph` is an insertion-ordered association list of node
  attribute records plus an insertion-ordered edge list; the graph operations
  below mirror exactly the networkx behaviours the source relies on.
* Python numbers are modelled exactly: row volumes are `Int`, and the
  `statistics.median` computation (which performs float division by 2 on an
  even-length list) is modelled over `ℚ`.
* The base64-encoded matplotlib chart produced by
  `_get_freshness_and_volume_graph_for_node` is binary image rendering and is
  abstracted as a string-valued parameter `enc : String → String` giving the
  encoded payload per node; everything textual around it is kept.
-/

/-! ## Quote characters used by identifier escaping, as named constants -/

/-- The backtick character, used by `escape_identifier_name`. -/
def backquoteChar : Char := Char.ofNat 96

/-- The single-quote character, used by `escape_identifier_name`. -/
def singleQuoteChar : Char := Char.ofNat 39

/-! ## `sqllineage.models` : identifier escaping, `Schema`, `Table` -/

/-- `sqllineage.utils.helpers.escape_identifier_name`:
`name.strip("`").strip('"').strip("'").lower()` — strip backticks, then double
quotes, then single quotes, from both ends, and lowercase. -/
def stripChar (c : Char) (s : List Char) : List Char :=
  ((s.dropWhile (· = c)).reverse.dropWhile (· = c)).reverse

def escape_identifier_name (name : String) : String :=
  let l := name.toList
  let l := stripChar backquoteChar l
  let l := stripChar '"' l
  let l := stripChar singleQuoteChar l
  String.mk (l.map Char.toLower)

/-- The marker `sqllineage.models.Schema` uses for an unknown schema. -/
def schemaUnknown : String := "<default>"

/-- `sqllineage.models.Schema`: wraps an escaped raw name. -/
structure Schema where
  raw_name : String
deriving DecidableEq, Repr

/-- `Schema(name)` constructor: `self.raw_name = escape_identifier_name(name)`. -/
def Schema.ofName (name : String) : Schema := ⟨escape_identifier_name name⟩

/-- `Schema()` default constructor (name defaults to `"<default>"`). -/
def Schema.defaultSchema : Schema := Schema.ofName schemaUnknown

/-- `str(schema)` is its raw name. -/
def Schema.toStr (s : Schema) : String := s.raw_name

/-- `bool(schema)`: true iff the raw name differs from `"<default>"`. -/
def Schema.toBool (s : Schema) : Bool := s.raw_name ≠ schemaUnknown

/-- `sqllineage.models.Table`: an escaped raw table name plus a `Schema`. -/
structure Table where
  schema : Schema
  raw_name : String
deriving DecidableEq, Repr

/-- `name.rsplit('.', 1)` when a dot is present: the part before the last dot
and the part after it. `none` when the name holds no dot. -/
def rsplitDot (name : String) : Option (String × String) :=
  let l := name.toList
  if l.contains '.' then
    let rev := l.reverse
    some (String.mk ((rev.dropWhile (· ≠ '.')).drop 1).reverse,
          String.mk (rev.takeWhile (· ≠ '.')).reverse)
  else
    none

/-- `Table(name)` constructor with the default (`<default>`) schema argument:
a dotted name is rsplit once into schema part and table part, an undotted name
keeps the default schema. -/
def Table.ofString (name : String) : Table :=
  match rsplitDot name with
  | none => ⟨Schema.defaultSchema, escape_identifier_name name⟩
  | some (sch, tbl) => ⟨Schema.ofName sch, escape_identifier_name tbl⟩

/-- `str(table)`: `f"{schema}.{raw_name}"` when the schema is truthy, else the
bare raw name. -/
def Table.toStr (t : Table) : String :=
  if t.schema.toBool then t.schema.toStr ++ "." ++ t.raw_name else t.raw_name

/-- `str(table).rsplit('.', 1)[-1]` — the last dot-segment. -/
def lastDotSegment (s : String) : String :=
  match rsplitDot s with
  | none => s
  | some (_, tbl) => tbl

/-- Python membership test `c in s` for a single character (kernel-reducible
form of `String.contains`). -/
def strHasChar (s : String) (c : Char) : Bool := s.toList.contains c

/-- Python substring test `needle in haystack`. -/
def strContainsSub (haystack needle : String) : Bool :=
  let h := haystack.toList
  let n := needle.toList
  (List.range (h.length + 1)).any (fun i => n.isPrefixOf (h.drop i))

/-! ## `LineageGraph` static configuration and qualification -/

/-- The constructor arguments of `LineageGraph` that qualification and graph
maintenance read (the static configuration). -/
structure LineageConfig where
  profile_database_name : String
  profile_schema_name : Option String
  show_isolated_nodes : Bool
  full_table_names : Bool
deriving DecidableEq, Repr

/-- `LineageGraph._resolve_table_qualification` (staticmethod).  NOTE: in
Python this assigns `table.schema` on the object it was handed, i.e. it
mutates its argument in place and returns the same object; the in-place
update is modelled by the returned record differing from the argument. -/
def resolve_table_qualification (table : Table) (database_name schema_name : Option String) :
    Table :=
  if ¬ table.schema.toBool then
    match database_name, schema_name with
    | some db, some sch => { table with schema := Schema.ofName (db ++ "." ++ sch) }
    | _, _ => table
  else
    let parsed_query_schema_name := table.schema.toStr
    if ¬ strHasChar parsed_query_schema_name '.' then
      match database_name with
      | some db => { table with schema := Schema.ofName (db ++ "." ++ parsed_query_schema_name) }
      | none => { table with schema := Schema.defaultSchema }
    else
      table

/-- `LineageGraph._should_ignore_table`: with a configured profile schema,
keep exactly on equality with `Schema(f"{db}.{schema}")`; with only a profile
database, keep when `str(Schema(db))` occurs as a substring of the resolved
schema string. -/
def should_ignore_table (cfg : LineageConfig) (table : Table) : Bool :=
  match cfg.profile_schema_name with
  | some ps =>
    ¬ (table.schema.toStr =
        (Schema.ofName (cfg.profile_database_name ++ "." ++ ps)).toStr)
  | none =>
    ¬ strContainsSub table.schema.toStr (Schema.ofName cfg.profile_database_name).toStr

/-- `LineageGraph._name_qualification`: resolve, drop out-of-scope tables,
then emit the full dotted string or its last segment per configuration. -/
def name_qualification (cfg : LineageConfig) (table : Table)
    (database_name schema_name : Option String) : Option String :=
  let table := resolve_table_qualification table database_name schema_name
  if should_ignore_table cfg table then
    none
  else if cfg.full_table_names then
    some table.toStr
  else
    some (lastDotSegment table.toStr)

/-! ## The networkx `DiGraph`, as used by the source -/

/-- Node attribute dictionary: the source only ever sets the keys `title` and
`color`; `none` models the key being absent. -/
structure NodeAttrs where
  color : Option String := none
  title : Option String := none
deriving DecidableEq, Repr

/-- A networkx `DiGraph`: insertion-ordered node list (name with attribute
dict) and insertion-ordered directed edge list. -/
structure DiGraph where
  nodes : List (String × NodeAttrs) := []
  edges : List (String × String) := []
deriving DecidableEq, Repr

def emptyDiGraph : DiGraph := {}

/-- `G.has_node(n)`. -/
def hasNode (g : DiGraph) (n : String) : Bool := g.nodes.any (·.1 = n)

/-- The node names in insertion order. -/
def nodeKeys (g : DiGraph) : List String := g.nodes.map Prod.fst

/-- `G.nodes[n]` (attribute dict of `n`; empty when absent). -/
def getAttrs (g : DiGraph) (n : String) : NodeAttrs :=
  ((g.nodes.find? (·.1 = n)).map Prod.snd).getD {}

/-- Rewrite the attribute dict of node `n` (shared helper: in networkx this is
an in-place update of `G.nodes[n]`; no-op on the node list's keys). -/
def mapAttr (g : DiGraph) (n : String) (f : NodeAttrs → NodeAttrs) : DiGraph :=
  { g with nodes := g.nodes.map (fun p => if p.1 = n then (p.1, f p.2) else p) }

/-- `G.add_node(n)` without attributes: creates the node if absent, else a
no-op. -/
def addNodePlain (g : DiGraph) (n : String) : DiGraph :=
  if hasNode g n then g else { g with nodes := g.nodes ++ [(n, {})] }

/-- `G.add_node(n, title=t)`: creates the node with the title attribute if
absent, else updates the existing dict's `title` key. -/
def addNodeTitle (g : DiGraph) (n : String) (t : String) : DiGraph :=
  if hasNode g n then mapAttr g n (fun a => { a with title := some t })
  else { g with nodes := g.nodes ++ [(n, { title := some t })] }

/-- `G.nodes[n].update(attrs)` merge used by `relabel_nodes` and `compose`:
keys present in `new` win, keys absent in `new` keep the old value. -/
def NodeAttrs.updateWith (old new : NodeAttrs) : NodeAttrs :=
  { color := new.color.orElse (fun _ => old.color),
    title := new.title.orElse (fun _ => old.title) }

/-- `G.add_node(n, **attrs)`: creates with the given dict if absent, else
merges it into the existing dict. -/
def addNodeMergeAttrs (g : DiGraph) (n : String) (attrs : NodeAttrs) : DiGraph :=
  if hasNode g n then mapAttr g n (fun a => a.updateWith attrs)
  else { g with nodes := g.nodes ++ [(n, attrs)] }

/-- `G.add_edge(s, t)`: creates the endpoint nodes if absent (without
attributes), then the edge if absent; idempotent. -/
def addEdge (g : DiGraph) (s t : String) : DiGraph :=
  let g := addNodePlain g s
  let g := addNodePlain g t
  if (s, t) ∈ g.edges then g else { g with edges := g.edges ++ [(s, t)] }

/-- `G.add_nodes_from(l)`. -/
def addNodesFrom (g : DiGraph) (l : List String) : DiGraph :=
  l.foldl addNodePlain g

/-- `G.add_edges_from(l)`. -/
def addEdgesFrom (g : DiGraph) (l : List (String × String)) : DiGraph :=
  l.foldl (fun g e => addEdge g e.1 e.2) g

/-- `G.remove_node(n)`: deletes the node entry and every incident edge. -/
def removeVertex (g : DiGraph) (n : String) : DiGraph :=
  { nodes := g.nodes.filter (fun p => p.1 ≠ n),
    edges := g.edges.filter (fun e => e.1 ≠ n ∧ e.2 ≠ n) }

/-- `list(G.successors(n))` in edge insertion order. -/
def successors (g : DiGraph) (n : String) : List String :=
  (g.edges.filter (fun e => e.1 = n)).map Prod.snd

/-- `list(G.predecessors(n))` in edge insertion order. -/
def predecessors (g : DiGraph) (n : String) : List String :=
  (g.edges.filter (fun e => e.2 = n)).map Prod.fst

/-- `G.degree(n)` for a networkx `DiGraph`: in-degree plus out-degree (a
self-loop counts twice). -/
def degree (g : DiGraph) (n : String) : Nat :=
  (g.edges.filter (fun e => e.1 = n)).length + (g.edges.filter (fun e => e.2 = n)).length

/-- `G.reverse(...)`: same nodes and attributes, every edge flipped. -/
def DiGraph.reverseEdges (g : DiGraph) : DiGraph :=
  { g with edges := g.edges.map (fun e => (e.2, e.1)) }

/-- `networkx.compose(G, H)`: vertex and edge union; `H`'s attribute values
take precedence key-by-key on shared nodes. -/
def composeGraphs (g h : DiGraph) : DiGraph :=
  let nodes := h.nodes.foldl
    (fun ns p =>
      if ns.any (·.1 = p.1) then
        ns.map (fun q => if q.1 = p.1 then (q.1, q.2.updateWith p.2) else q)
      else ns ++ [p])
    g.nodes
  let edges := h.edges.foldl (fun es e => if e ∈ es then es else es ++ [e]) g.edges
  { nodes := nodes, edges := edges }

/-- One parent's expansion inside `networkx...generic_bfs_edges`: walk the
parent's successors in order, keep the edges to unvisited children, mark them
visited, and enqueue a child (with decremented budget) only while the depth
budget exceeds 1. -/
def bfsExpand (g : DiGraph) (parent : String) (depthNow : Nat)
    (visited : List String) :
    List String × List (String × String) × List (String × Nat) :=
  (successors g parent).foldl
    (fun acc child =>
      if acc.1.contains child then acc
      else
        (acc.1 ++ [child], acc.2.1 ++ [(parent, child)],
         if depthNow > 1 then acc.2.2 ++ [(child, depthNow - 1)] else acc.2.2))
    (visited, [], [])

/-- The queue loop of `generic_bfs_edges`, with explicit fuel (each step
consumes the queue's front entry; the fuel bound chosen by the callers
dominates the number of entries ever enqueued). -/
def bfsLoop (g : DiGraph) : Nat → List (String × Nat) → List String →
    List (String × String) → List (String × String)
  | 0, _, _, acc => acc
  | _ + 1, [], _, acc => acc
  | fuel + 1, (parent, depthNow) :: rest, visited, acc =>
    let step := bfsExpand g parent depthNow visited
    bfsLoop g fuel (rest ++ step.2.2) step.1 (acc ++ step.2.1)

/-- `networkx.bfs_edges(G, source, depth_limit=d)`: `None` becomes `len(G)`
as in the library. -/
def bfsEdges (g : DiGraph) (source : String) (depthLimit : Option Nat) :
    List (String × String) :=
  let dl := depthLimit.getD g.nodes.length
  bfsLoop g (g.edges.length + 1) [(source, dl)] [source] []

/-- `networkx.bfs_tree(G, source, depth_limit=d)`: a fresh `DiGraph` holding
the source node (without attributes) and the BFS edges — node attributes of
`G` are NOT copied into the tree. -/
def bfsTree (g : DiGraph) (source : String) (depthLimit : Option Nat) : DiGraph :=
  addEdgesFrom (addNodePlain emptyDiGraph source) (bfsEdges g source depthLimit)

/-! ## Catalog, execution context, and the full engine state -/

/-- One catalog record: `{'volume': [], 'update_times': [], 'last_html': None}`
is the defaultdict initial value; `_add_node_to_catalog` appends to the two
lists and overwrites `last_html`. -/
structure CatalogEntry where
  volume : List Int := []
  update_times : List String := []
  last_html : Option String := none
deriving DecidableEq, Repr

/-- The catalog: a key-ordered association list standing for the Python dict
(`defaultdict` creation is made explicit at each use site). -/
abbrev Catalog : Type := List (String × CatalogEntry)

/-- Dict read `catalog[k]` when the key is present. -/
def catalogLookup (cat : Catalog) (k : String) : Option CatalogEntry :=
  (cat.find? (fun p => p.1 = k)).map Prod.snd

/-- Dict write `catalog[k] = v` (overwrites an existing key, else appends). -/
def catalogSet (cat : Catalog) (k : String) (v : CatalogEntry) : Catalog :=
  if cat.any (·.1 = k) then cat.map (fun p => if p.1 = k then (k, v) else p)
  else cat ++ [(k, v)]

/-- Dict delete `del catalog[k]`. -/
def catalogErase (cat : Catalog) (k : String) : Catalog :=
  cat.filter (fun p => p.1 ≠ k)

/-- Modelled from the spec: the repository's `QueryContext` class
(`lineage/query_context.py`) is not under `src/`; per the spec's
ExecutionContext it carries per-statement metadata, of which the lineage graph
reads the row-volume integer (`query_volume`), the formatted completion
timestamp (`query_time_to_str(query_time, fmt='%Y-%m-%d %H:%M:%S')`, kept here
as the already-formatted string), and the HTML rendering `to_html()` (kept as
an abstract string). -/
structure QueryContext where
  query_volume : Int
  query_time_str : String
  html : String

/-- The mutable state of a `LineageGraph` instance. -/
structure LineageState where
  config : LineageConfig
  graph : DiGraph := {}
  catalog : Catalog := []

/-- `LineageGraph._add_node_to_catalog`: appends the volume sample and the
formatted time, overwrites the last rendered HTML (defaultdict semantics give
a fresh empty entry on first touch). -/
def add_node_to_catalog (st : LineageState) (node : String) (ctx : QueryContext) :
    LineageState :=
  let e := (catalogLookup st.catalog node).getD ({})
  let e2 : CatalogEntry :=
    { volume := e.volume ++ [ctx.query_volume],
      update_times := e.update_times ++ [ctx.query_time_str],
      last_html := some ctx.html }
  { st with catalog := catalogSet st.catalog node e2 }

/-- A target node added by `_add_nodes_and_edges`:
`add_node(target, title=ctx.to_html())` followed by `_add_node_to_catalog`. -/
def addTargetNode (st : LineageState) (target : String) (ctx : QueryContext) :
    LineageState :=
  add_node_to_catalog { st with graph := addNodeTitle st.graph target ctx.html } target ctx

/-- The body of `LineageGraph._add_nodes_and_edges` after the `None` entries
have been discarded: the four-way policy on (sources-empty, targets-empty),
with an edge added for each pair in the Cartesian product sources × targets
in the both-nonempty case. -/
def add_nodes_and_edges_filtered (st : LineageState) (sources targets : List String)
    (ctx : QueryContext) : LineageState :=
  if sources.isEmpty ∧ targets.isEmpty then st
  else if sources.length > 0 ∧ targets.length = 0 then
    if st.config.show_isolated_nodes then
      { st with graph := addNodesFrom st.graph sources }
    else st
  else if targets.length > 0 ∧ sources.length = 0 then
    if st.config.show_isolated_nodes then
      targets.foldl (fun s t => addTargetNode s t ctx) st
    else st
  else
    let st := { st with graph := addNodesFrom st.graph sources }
    let st := targets.foldl (fun s t => addTargetNode s t ctx) st
    { st with graph :=
        (sources.product targets).foldl (fun g p => addEdge g p.1 p.2) st.graph }

/-- `LineageGraph._add_nodes_and_edges`: sources and targets come in as
qualified names with `None` for excluded tables; the `None`s are removed
first (`sources.remove(None)` / `targets.remove(None)`). -/
def add_nodes_and_edges (st : LineageState) (sources targets : List (Option String))
    (ctx : QueryContext) : LineageState :=
  add_nodes_and_edges_filtered st (sources.filterMap id) (targets.filterMap id) ctx

/-- `networkx.relabel_nodes(G, {old: new}, copy=False)` as executed by
`_relabel_inplace` for a single (old ≠ new) pair: merge old's attribute dict
into `new` (creating it if needed), collect old's out- and in-edges retargeted
to `new` (self-loops staying self-loops), remove `old` with its incident
edges, then add the retargeted edges. -/
def relabelNode (g : DiGraph) (old new : String) : DiGraph :=
  let oldAttrs := getAttrs g old
  let g1 := addNodeMergeAttrs g new oldAttrs
  let outEdges := (g.edges.filter (fun e => e.1 = old)).map
    (fun e => (new, if e.2 = old then new else e.2))
  let inEdges := (g.edges.filter (fun e => e.2 = old)).map
    (fun e => ((if e.1 = old then new else e.1), new))
  addEdgesFrom (removeVertex g1 old) (outEdges ++ inEdges)

/-- `LineageGraph._rename_node`: no-op when either name is `None` or the old
node is absent; otherwise relabel in the graph and migrate the catalog entry
(save, delete old key, assign new key). -/
def rename_node (st : LineageState) (old_node new_node : Option String) : LineageState :=
  match old_node, new_node with
  | some old, some new =>
    if hasNode st.graph old then
      let g := relabelNode st.graph old new
      let cat :=
        match catalogLookup st.catalog old with
        | some attrs => catalogSet (catalogErase st.catalog old) new attrs
        | none => st.catalog
      { st with graph := g, catalog := cat }
    else st
  | _, _ => st

/-- The single-pass isolation pruning inside `_remove_node`: walk the given
former neighbors and remove each one that still exists and now has degree 0. -/
def pruneIsolated (g : DiGraph) (neighbors : List String) : DiGraph :=
  neighbors.foldl
    (fun g m => if hasNode g m ∧ degree g m = 0 then removeVertex g m else g) g

/-- `LineageGraph._remove_node`: when the node exists, snapshot its successors
and predecessors, remove it (incident edges go with it), then — only when
isolated-node display is disabled — prune the now-isolated direct neighbors
(successors first, then predecessors), and finally delete the node's catalog
entry if it has one. -/
def remove_node (st : LineageState) (node : Option String) : LineageState :=
  match node with
  | none => st
  | some n =>
    if hasNode st.graph n then
      let node_successors := successors st.graph n
      let node_predecessors := predecessors st.graph n
      let g := removeVertex st.graph n
      let g :=
        if st.config.show_isolated_nodes then g
        else pruneIsolated (pruneIsolated g node_successors) node_predecessors
      { st with graph := g,
                catalog := if (catalogLookup st.catalog n).isSome
                           then catalogErase st.catalog n else st.catalog }
    else st

/-! ## Selection (`filter_on_table`) and highlighting -/

/-- `LineageGraph.SELECTED_NODE_COLOR`. -/
def SELECTED_NODE_COLOR : String := "#0925C7"

/-- `LineageGraph.SELECTED_NODE_TITLE`. -/
def SELECTED_NODE_TITLE : String := "Selected table<br/>"

/-- `LineageGraph.UPSTREAM_DIRECTION`. -/
def UPSTREAM_DIRECTION : String := "upstream"

/-- `LineageGraph.DOWNSTREAM_DIRECTION`. -/
def DOWNSTREAM_DIRECTION : String := "downstream"

/-- `LineageGraph.BOTH_DIRECTIONS`. -/
def BOTH_DIRECTIONS : String := "both"

/-- The `ConfigError` message for an unresolvable table name (the f-string of
`filter_on_table`, echoing the offending table name). -/
def couldNotResolveMsg (selected_table : String) : String :=
  "Could not resolve table name - " ++ selected_table ++
    ", please make sure to specify a table name that exists in the database configured in your profiles file."

/-- The `ConfigError` message for an invalid direction (the f-string of
`filter_on_table`, echoing the offending direction; Python renders `None` as
the text "None"). -/
def invalidDirectionMsg (direction : Option String) : String :=
  "Direction must be one of the following - " ++ UPSTREAM_DIRECTION ++ "|" ++
    DOWNSTREAM_DIRECTION ++ "|" ++ BOTH_DIRECTIONS ++ ", Got - " ++
    (match direction with | some d => d | none => "None") ++ " instead."

/-- `LineageGraph._downstream_graph`: `nx.bfs_tree(G, source, depth_limit)`. -/
def downstream_graph (g : DiGraph) (source_node : String) (depth : Option Nat) : DiGraph :=
  bfsTree g source_node depth

/-- `LineageGraph._upstream_graph`: BFS tree on the reversed graph, reversed
back. -/
def upstream_graph (g : DiGraph) (target_node : String) (depth : Option Nat) : DiGraph :=
  (bfsTree g.reverseEdges target_node depth).reverseEdges

/-- `LineageGraph._update_selected_node_attributes`: when the selected node is
present, overwrite its `color` with the selection color and its `title` with
the selection marker prepended to `node.get('title', '')`. -/
def update_selected_node_attributes (g : DiGraph) (selected_node : String) : DiGraph :=
  if hasNode g selected_node then
    mapAttr g selected_node (fun a =>
      { color := some SELECTED_NODE_COLOR,
        title := some (SELECTED_NODE_TITLE ++ a.title.getD "") })
  else g

/-- `LineageGraph.filter_on_table`: qualify the selected table against the
profile database/schema; fail with `ConfigError` when it does not resolve or
when the direction is invalid (leaving the state untouched); otherwise replace
the graph by the directional extraction and highlight the selected node.  The
first component is `some errorMessage` exactly when `ConfigError` is raised.
(When the resolved name is absent from the graph, networkx itself would fail
when the BFS generator runs; that failure is not a `ConfigError` and is
outside this model, which is exercised on selections present in the graph.) -/
def filter_on_table (st : LineageState) (selected_table : String)
    (direction : Option String) (depth : Option Nat) : Option String × LineageState :=
  match name_qualification st.config (Table.ofString selected_table)
      (some st.config.profile_database_name) st.config.profile_schema_name with
  | none => (some (couldNotResolveMsg selected_table), st)
  | some resolved =>
    if direction = some DOWNSTREAM_DIRECTION then
      let g := downstream_graph st.graph resolved depth
      (none, { st with graph := update_selected_node_attributes g resolved })
    else if direction = some UPSTREAM_DIRECTION then
      let g := upstream_graph st.graph resolved depth
      (none, { st with graph := update_selected_node_attributes g resolved })
    else if direction = some BOTH_DIRECTIONS then
      let dg := downstream_graph st.graph resolved depth
      let ug := upstream_graph st.graph resolved depth
      let g := composeGraphs ug dg
      (none, { st with graph := update_selected_node_attributes g resolved })
    else
      (some (invalidDirectionMsg direction), st)

/-! ## Freshness overlay (`_enrich_graph_with_monitoring_context`) -/

/-- Stable ascending insertion of one element (the order `sorted(...)`
produces; only the resulting multiset matters for the median). -/
def insertSorted (x : Int) : List Int → List Int
  | [] => [x]
  | y :: ys => if x ≤ y then x :: y :: ys else y :: insertSorted x ys

/-- Python `sorted` on integers. -/
def sortInts (l : List Int) : List Int := l.foldr insertSorted []

/-- `statistics.median`: middle element for odd length, mean of the two middle
elements for even length (Python performs float division; modelled exactly
over `ℚ`).  The empty list (on which Python raises `StatisticsError`) is given
the junk value 0 and excluded by hypotheses. -/
def pyMedian (l : List Int) : ℚ :=
  let s := sortInts l
  let n := s.length
  if n % 2 = 1 then ((s.getD (n / 2) 0 : Int) : ℚ)
  else (((s.getD (n / 2 - 1) 0 : Int) : ℚ) + ((s.getD (n / 2) 0 : Int) : ℚ)) / 2

/-- The anomaly test of `_enrich_graph_with_monitoring_context`:
`node_volumes[-1] < median(node_volumes) / 2` — note: the median is taken
over the FULL volume history of the node.  The empty-list branch is
unreachable for real catalog entries (Python would raise `IndexError`). -/
def volumeAnomaly (vs : List Int) : Bool :=
  match vs.getLast? with
  | none => false
  | some last => decide ((last : ℚ) < pyMedian vs / 2)

/-- The textual shell of `_get_freshness_and_volume_graph_for_node` around the
base64 chart payload `encoded` (the matplotlib PNG itself is abstracted; the
chart is plotted from only the LAST THREE times/volumes, which does not
influence the anomaly decision). -/
def freshnessChartHtml (encoded : String) : String :=
  "\n        <br/><div style=\"font-family:arial;color:DarkSlateGrey;font-size:110%;\">\n" ++
  "                                <strong>\n" ++
  "                                    Freshness & volume graph</br>\n" ++
  "                                </strong>\n" ++
  "                                <img width=\"400\" height=\"300\" src=" ++
  singleQuoteChar.toString ++ "data:image/png;base64," ++ encoded ++
  singleQuoteChar.toString ++ ">\n        </div>\n        "

/-- The normal (non-anomalous) node title of
`_enrich_graph_with_monitoring_context`, wrapping the stored last rendering
plus the freshness chart. -/
def plainTitleHtml (inner : String) : String :=
  "\n                <html>\n                    <body>\n                        " ++
  inner ++ "\n                    </body>\n                </html>\n                "

/-- The anomalous node title: the warning block prepended before the same
rendering. -/
def warningTitleHtml (inner : String) : String :=
  "\n                        <html>\n                            <body>\n" ++
  "                                <div style=\"font-family:arial;color:tomato;font-size:110%;\">\n" ++
  "                                    <strong>\n" ++
  "                                    Warning - last update volume is too low</br></br>\n" ++
  "                                    </strong>\n" ++
  "                                </div>\n                                " ++
  inner ++ "\n                            </body>\n                        </html>\n                        "

/-- In-place write `G.nodes[n]['color'] = c`. -/
def setColorAttr (g : DiGraph) (n : String) (c : String) : DiGraph :=
  mapAttr g n (fun a => { a with color := some c })

/-- In-place write `G.nodes[n]['title'] = t`. -/
def setTitleAttr (g : DiGraph) (n : String) (t : String) : DiGraph :=
  mapAttr g n (fun a => { a with title := some t })

/-- The per-node body of the loop in `_enrich_graph_with_monitoring_context`:
skip nodes without a catalog entry; otherwise build the title around
`last_html + freshness_chart`, and when the anomaly test fires, set the node
color to red and use the warning title instead.  `enc node` abstracts the
base64 chart payload for the node. -/
def enrichNode (cat : Catalog) (enc : String → String) (g : DiGraph) (node : String) :
    DiGraph :=
  match catalogLookup cat node with
  | none => g
  | some entry =>
    let inner := entry.last_html.getD "" ++ freshnessChartHtml (enc node)
    if volumeAnomaly entry.volume then
      setTitleAttr (setColorAttr g node "red") node (warningTitleHtml inner)
    else
      setTitleAttr g node (plainTitleHtml inner)

/-- `LineageGraph._enrich_graph_with_monitoring_context`: iterate over the
graph's nodes (the loop mutates only attribute dicts, never the node list
being iterated). -/
def enrich_graph_with_monitoring_context (st : LineageState) (enc : String → String) :
    DiGraph :=
  st.graph.nodes.foldl (fun g p => enrichNode st.catalog enc g p.1) st.graph

/-! ## Concrete fixtures used by the example-level claims and witnesses -/

/-- A profile configuration: database `db1`, schema `sch1`, isolated-node
display disabled, short table names. -/
def cfgShort : LineageConfig :=
  { profile_database_name := "db1", profile_schema_name := some "sch1",
    show_isolated_nodes := false, full_table_names := false }

/-- The same configuration with isolated-node display enabled. -/
def cfgShortIso : LineageConfig := { cfgShort with show_isolated_nodes := true }

/-- The chain `a -> b -> c -> d` (qualified short names). -/
def chainGraph : DiGraph :=
  { nodes := [("a", {}), ("b", {}), ("c", {}), ("d", {})],
    edges := [("a", "b"), ("b", "c"), ("c", "d")] }

/-- Engine state holding exactly the chain. -/
def chainState : LineageState := { config := cfgShort, graph := chainGraph }

/-- The two-vertex graph holding exactly the edge `a -> b`. -/
def edgeABGraph : DiGraph :=
  { nodes := [("a", {}), ("b", {})], edges := [("a", "b")] }

/-- A catalog entry with a single volume sample, for fixtures. -/
def entryA : CatalogEntry := { volume := [1] }

/-- Another catalog entry, distinguishable from `entryA`. -/
def entryC : CatalogEntry := { volume := [9] }

/-- State for the drop scenario: `a -> b` with catalog entries for both. -/
def dropState : LineageState :=
  { config := cfgShort, graph := edgeABGraph,
    catalog := [("a", entryA), ("b", { volume := [2] })] }

/-- The drop scenario with isolated-node display enabled. -/
def dropStateIso : LineageState := { dropState with config := cfgShortIso }

/-- State for the rename scenario: `a -> b`, a catalog entry at `a` and a
pre-existing entry at the rename target `c`. -/
def renameState (ea ec : CatalogEntry) : LineageState :=
  { config := cfgShort, graph := edgeABGraph,
    catalog := [("a", ea), ("c", ec)] }

/-- Volume history distinguishing "median of the whole history" from "median
of the last up-to-three samples": the last three samples are `[100, 100, 40]`
(median 100), while the full history has median 40. -/
def volsC1 : List Int := [10, 10, 100, 100, 40]

/-- State for the freshness counterexample: one node `n` carrying `volsC1`. -/
def freshState : LineageState :=
  { config := cfgShort,
    graph := { nodes := [("n", {})], edges := [] },
    catalog := [("n", { volume := volsC1,
                        update_times := ["t1", "t2", "t3", "t4", "t5"],
                        last_html := some "DETAIL" })] }

/-- A concrete stand-in for the per-node base64 chart payload. -/
def encFixed : String → String := fun _ => "IMG"

/-- State for the selection-title counterexample: the selected node already
carries the display title `t0`. -/
def titledState : LineageState :=
  { config := cfgShort,
    graph := { nodes := [("b", { title := some "t0" })], edges := [] } }

/-- The claim's reading of "the last up-to-three samples": Python `l[-3:]`. -/
def lastUpToThree (l : List Int) : List Int := l.drop (l.length - 3)

/-- The catalog entry of the anomalous-example node: the spec's own sample
history `[100, 100, 100, 10]`. -/
def entryM : CatalogEntry :=
  { volume := [100, 100, 100, 10],
    update_times := ["t1", "t2", "t3", "t4"],
    last_html := some "DETAIL" }

/-- State with a single node `m` carrying the anomalous history. -/
def freshStateAnom : LineageState :=
  { config := cfgShort,
    graph := { nodes := [("m", {})], edges := [] },
    catalog := [("m", entryM)] }

/-- Closed form of the attribute dict `_enrich_graph_with_monitoring_context`
leaves on a node (as a function of the node's prior attributes), read off the
loop body; used to state what the enrichment pass does to each node. -/
def enrichedAttrs (cat : Catalog) (enc : String → String) (node : String)
    (a : NodeAttrs) : NodeAttrs :=
  match catalogLookup cat node with
  | none => a
  | some entry =>
    let inner := entry.last_html.getD "" ++ freshnessChartHtml (enc node)
    if volumeAnomaly entry.volume then
      { color := some "red", title := some (warningTitleHtml inner) }
    else
      { color := a.color, title := some (plainTitleHtml inner) }

/-! ## Helper lemmas: attribute updates, membership, removal -/

theorem any_key_map_update (l : List (String × NodeAttrs)) (n : String)
    (f : NodeAttrs → NodeAttrs) (v : String) :
    (l.map (fun p => if p.1 = n then (p.1, f p.2) else p)).any (·.1 = v) =
      l.any (·.1 = v) := by
  induction l with
  | nil => rfl
  | cons p t ih =>
    simp only [List.map_cons, List.any_cons, ih]
    by_cases h : p.1 = n <;> simp [h]

theorem keys_map_update (l : List (String × NodeAttrs)) (n : String)
    (f : NodeAttrs → NodeAttrs) :
    (l.map (fun p => if p.1 = n then (p.1, f p.2) else p)).map Prod.fst =
      l.map Prod.fst := by
  induction l with
  | nil => rfl
  | cons p t ih =>
    simp only [List.map_cons, ih]
    by_cases h : p.1 = n <;> simp [h]

theorem find?_key_map_update_ne (l : List (String × NodeAttrs)) (n : String)
    (f : NodeAttrs → NodeAttrs) (m : String) (h : m ≠ n) :
    (l.map (fun p => if p.1 = n then (p.1, f p.2) else p)).find? (·.1 = m) =
      l.find? (·.1 = m) := by
  induction l with
  | nil => rfl
  | cons p t ih =>
    by_cases hp : p.1 = m
    · have hpn : ¬ p.1 = n := fun hc => h (hp ▸ hc ▸ rfl)
      have e1 : (if p.1 = n then (p.1, f p.2) else p) = p := by simp [hpn]
      simp only [List.map_cons, e1]
      rw [List.find?_cons_of_pos _ (by simpa using hp),
          List.find?_cons_of_pos _ (by simpa using hp)]
    · by_cases hpn : p.1 = n
      · have : ¬ (p.1, f p.2).1 = m := hp
        simp only [List.map_cons, if_pos hpn]
        rw [List.find?_cons_of_neg _ (by simpa using this),
            List.find?_cons_of_neg _ (by simpa using hp), ih]
      · simp only [List.map_cons, if_neg hpn]
        rw [List.find?_cons_of_neg _ (by simpa using hp),
            List.find?_cons_of_neg _ (by simpa using hp), ih]

theorem find?_key_map_update_self (l : List (String × NodeAttrs)) (n : String)
    (f : NodeAttrs → NodeAttrs) (h : l.any (·.1 = n) = true) :
    ((l.map (fun p => if p.1 = n then (p.1, f p.2) else p)).find? (·.1 = n)).map
        Prod.snd =
      ((l.find? (·.1 = n)).map Prod.snd).map f := by
  induction l with
  | nil => cases h
  | cons p t ih =>
    by_cases hp : p.1 = n
    · simp only [List.map_cons, if_pos hp]
      rw [List.find?_cons_of_pos _ (by simpa using hp),
          List.find?_cons_of_pos _ (by simpa using hp)]
      simp
    · simp only [List.any_cons] at h
      have ht : t.any (·.1 = n) = true := by
        rcases Bool.or_eq_true_iff.mp h with h1 | h1
        · exact absurd (of_decide_eq_true h1) hp
        · exact h1
      simp only [List.map_cons, if_neg hp]
      rw [List.find?_cons_of_neg _ (by simpa using hp),
          List.find?_cons_of_neg _ (by simpa using hp)]
      exact ih ht

theorem hasNode_mapAttr (g : DiGraph) (n : String) (f : NodeAttrs → NodeAttrs)
    (v : String) : hasNode (mapAttr g n f) v = hasNode g v :=
  any_key_map_update g.nodes n f v

theorem nodeKeys_mapAttr (g : DiGraph) (n : String) (f : NodeAttrs → NodeAttrs) :
    nodeKeys (mapAttr g n f) = nodeKeys g :=
  keys_map_update g.nodes n f

theorem getAttrs_mapAttr_ne (g : DiGraph) (n : String) (f : NodeAttrs → NodeAttrs)
    (m : String) (h : m ≠ n) : getAttrs (mapAttr g n f) m = getAttrs g m := by
  unfold getAttrs mapAttr
  rw [find?_key_map_update_ne g.nodes n f m h]

theorem getAttrs_mapAttr_self (g : DiGraph) (n : String) (f : NodeAttrs → NodeAttrs)
    (h : hasNode g n = true) : getAttrs (mapAttr g n f) n = f (getAttrs g n) := by
  unfold getAttrs mapAttr
  rw [find?_key_map_update_self g.nodes n f h]
  rcases hf : g.nodes.find? (·.1 = n) with _ | p
  · exfalso
    unfold hasNode at h
    rcases List.any_eq_true.mp h with ⟨p, hp, hkey⟩
    have hs : (g.nodes.find? (·.1 = n)).isSome := List.find?_isSome.mpr ⟨p, hp, hkey⟩
    rw [hf] at hs
    cases hs
  · simp [hf]

theorem any_key_filter_ne {α : Type} (l : List (String × α)) (m v : String)
    (h : v ≠ m) :
    ((l.filter fun p => p.1 ≠ m).any fun p => p.1 = v) = (l.any fun p => p.1 = v) := by
  induction l with
  | nil => rfl
  | cons p t ih =>
    rw [List.filter_cons]
    by_cases hpm : p.1 = m
    · have hpv : ¬ p.1 = v := fun hc => h (hc ▸ hpm ▸ rfl)
      rw [if_neg (by simpa using hpm), List.any_cons, ih]
      simp [hpv]
    · rw [if_pos (by simpa using hpm), List.any_cons, List.any_cons, ih]

theorem find?_key_filter_ne {α : Type} (l : List (String × α)) (m v : String)
    (h : v ≠ m) :
    ((l.filter fun p => p.1 ≠ m).find? fun p => p.1 = v) = (l.find? fun p => p.1 = v) := by
  induction l with
  | nil => rfl
  | cons p t ih =>
    rw [List.filter_cons]
    by_cases hpm : p.1 = m
    · have hpv : ¬ (p.1 = v) := fun hc => h (hc ▸ hpm ▸ rfl)
      rw [if_neg (by simpa using hpm), List.find?_cons_of_neg _ (by simpa using hpv), ih]
    · rw [if_pos (by simpa using hpm)]
      by_cases hpv : p.1 = v
      · rw [List.find?_cons_of_pos _ (by simpa using hpv),
            List.find?_cons_of_pos _ (by simpa using hpv)]
      · rw [List.find?_cons_of_neg _ (by simpa using hpv),
            List.find?_cons_of_neg _ (by simpa using hpv), ih]

theorem hasNode_removeVertex_ne (g : DiGraph) (m v : String) (h : v ≠ m) :
    hasNode (removeVertex g m) v = hasNode g v :=
  any_key_filter_ne g.nodes m v h

theorem hasNode_pruneIsolated_notMem (neighbors : List String) (g : DiGraph)
    (v : String) (h : v ∉ neighbors) :
    hasNode (pruneIsolated g neighbors) v = hasNode g v := by
  induction neighbors generalizing g with
  | nil => rfl
  | cons m t ih =>
    have hvm : v ≠ m := fun hc => h (hc ▸ List.mem_cons_self m t)
    have hvt : v ∉ t := fun hc => h (List.mem_cons_of_mem m hc)
    show hasNode (pruneIsolated (if _ then _ else g) t) v = hasNode g v
    rw [ih _ hvt]
    by_cases hc : hasNode g m ∧ degree g m = 0
    · rw [if_pos hc, hasNode_removeVertex_ne g m v hvm]
    · rw [if_neg hc]

theorem catalogLookup_erase_ne (cat : Catalog) (k v : String) (h : v ≠ k) :
    catalogLookup (catalogErase cat k) v = catalogLookup cat v := by
  unfold catalogLookup catalogErase
  rw [find?_key_filter_ne cat k v h]

/-! ## Claim C2: qualification and in-place mutation -/

/-- Claim C2, counterexample: qualifying an unqualified reference with a known
ingestion database and schema rewrites the reference's schema attribute in
place (`table.schema = Schema(...)`), so the reference is NOT left unmodified:
for the bare table `tbl` under ingestion context (`db`, `sch`) the schema part
after the call differs from the schema part before it. -/
theorem C2_counterexample :
    (resolve_table_qualification (Table.ofString "tbl") (some "db") (some "sch")).schema ≠
      (Table.ofString "tbl").schema := by
  decide

/-- Claim C2 (amended): the Table Qualifier may rewrite the schema attribute
of the reference it is given (that is the in-place mutation
`table.schema = Schema(...)`); the raw table-name part is never modified, an
already-dotted schema is left fully unchanged, and the result is a function of
the reference, the ingestion database/schema, and nothing else. -/
theorem C2_qualifier_mutation_scope (t : Table) (db sch : Option String) :
    (resolve_table_qualification t db sch).raw_name = t.raw_name ∧
    (t.schema.toBool = true → strHasChar t.schema.toStr '.' = true →
      resolve_table_qualification t db sch = t) := by
  constructor
  · unfold resolve_table_qualification
    split
    · split <;> rfl
    · dsimp only
      split
      · split <;> rfl
      · rfl
  · intro hb hd
    simp [resolve_table_qualification, hb, hd]

/-- Claim C2, witness: the amended theorem applied to the fully qualified
reference `db.sch.tbl` with ingestion context (`x`, `y`). -/
theorem C2_witness :
    ((Table.ofString "db.sch.tbl").schema.toBool = true) ∧
    (strHasChar (Table.ofString "db.sch.tbl").schema.toStr '.' = true) ∧
    (resolve_table_qualification (Table.ofString "db.sch.tbl") (some "x") (some "y")).raw_name =
      (Table.ofString "db.sch.tbl").raw_name ∧
    resolve_table_qualification (Table.ofString "db.sch.tbl") (some "x") (some "y") =
      Table.ofString "db.sch.tbl" :=
  ⟨by decide, by decide,
   (C2_qualifier_mutation_scope (Table.ofString "db.sch.tbl") (some "x") (some "y")).1,
   (C2_qualifier_mutation_scope (Table.ofString "db.sch.tbl") (some "x") (some "y")).2
     (by decide) (by decide)⟩

/-! ## Claim C7: qualification idempotence for dotted references -/

/-- Claim C7: for a table reference whose schema part is already dotted
(`db.schema`), resolution leaves the reference exactly as it is, and the
qualified identifier emitted by the Table Qualifier is the same for every
pair of ingestion database/schema values — the ingestion context does not
influence the result. -/
theorem C7_qualification_idempotent (cfg : LineageConfig) (t : Table)
    (db sch db' sch' : Option String) (h : strHasChar t.schema.toStr '.' = true) :
    resolve_table_qualification t db sch = t ∧
    name_qualification cfg t db sch = name_qualification cfg t db' sch' := by
  have hraw : t.schema.raw_name ≠ schemaUnknown := by
    intro he
    rw [Schema.toStr, he] at h
    exact absurd h (by decide)
  have hb : t.schema.toBool = true := by
    simp [Schema.toBool, hraw]
  have hres : resolve_table_qualification t db sch = t := by
    simp [resolve_table_qualification, hb, h]
  have hres' : resolve_table_qualification t db' sch' = t := by
    simp [resolve_table_qualification, hb, h]
  refine ⟨hres, ?_⟩
  unfold name_qualification
  rw [hres, hres']

/-- Claim C7, witness: the reference `db1.sch1.x` qualified under two
different ingestion contexts. -/
theorem C7_witness :
    (strHasChar (Table.ofString "db1.sch1.x").schema.toStr '.' = true) ∧
    resolve_table_qualification (Table.ofString "db1.sch1.x") (some "p") (some "q") =
      Table.ofString "db1.sch1.x" ∧
    name_qualification cfgShort (Table.ofString "db1.sch1.x") (some "p") (some "q") =
      name_qualification cfgShort (Table.ofString "db1.sch1.x") none none :=
  ⟨by decide,
   (C7_qualification_idempotent cfgShort (Table.ofString "db1.sch1.x")
      (some "p") (some "q") none none (by decide)).1,
   (C7_qualification_idempotent cfgShort (Table.ofString "db1.sch1.x")
      (some "p") (some "q") none none (by decide)).2⟩

/-! ## Claim C6: directional extraction on the chain -/

/-- Claim C6: on the chain `a -> b -> c -> d`, selecting `B` (the qualifier
lowercases it to the vertex `b`) with depth 1 yields, for direction
`downstream`, exactly the vertices `{b, c}` and the edge `b -> c`; for
`upstream`, exactly `{b, a}` and `a -> b`; and for `both`, exactly
`{b, a, c}` with edges `{a -> b, b -> c}` — the union of the two truncated
BFS trees.  Each selection succeeds (no configuration error). -/
theorem C6_directional_extraction :
    ((filter_on_table chainState "B" (some DOWNSTREAM_DIRECTION) (some 1)).1 = none ∧
      nodeKeys (filter_on_table chainState "B" (some DOWNSTREAM_DIRECTION) (some 1)).2.graph =
        ["b", "c"] ∧
      (filter_on_table chainState "B" (some DOWNSTREAM_DIRECTION) (some 1)).2.graph.edges =
        [("b", "c")]) ∧
    ((filter_on_table chainState "B" (some UPSTREAM_DIRECTION) (some 1)).1 = none ∧
      nodeKeys (filter_on_table chainState "B" (some UPSTREAM_DIRECTION) (some 1)).2.graph =
        ["b", "a"] ∧
      (filter_on_table chainState "B" (some UPSTREAM_DIRECTION) (some 1)).2.graph.edges =
        [("a", "b")]) ∧
    ((filter_on_table chainState "B" (some BOTH_DIRECTIONS) (some 1)).1 = none ∧
      nodeKeys (filter_on_table chainState "B" (some BOTH_DIRECTIONS) (some 1)).2.graph =
        ["b", "a", "c"] ∧
      (filter_on_table chainState "B" (some BOTH_DIRECTIONS) (some 1)).2.graph.edges =
        [("a", "b"), ("b", "c")]) := by
  decide

/-! ## Claim C5: rename preserves structure and migrates the catalog entry -/

/-- Claim C5: on the graph holding exactly `a -> b`, renaming `a` to `c`
yields exactly the edge `c -> b`, and whatever catalog entry was keyed by `a`
is afterwards keyed by `c` with identical content, overwriting the entry that
previously sat at key `c`; no entry remains under `a`. -/
theorem C5_rename_preserves_structure (ea ec : CatalogEntry) :
    (rename_node (renameState ea ec) (some "a") (some "c")).graph =
      { nodes := [("b", {}), ("c", {})], edges := [("c", "b")] } ∧
    catalogLookup (rename_node (renameState ea ec) (some "a") (some "c")).catalog "c" =
      some ea ∧
    catalogLookup (rename_node (renameState ea ec) (some "a") (some "c")).catalog "a" =
      none :=
  ⟨rfl, rfl, rfl⟩

/-- Claim C5, witness: the rename theorem at the concrete entries `entryA`
(under `a`) and `entryC` (pre-existing under `c`). -/
theorem C5_witness :
    (rename_node (renameState entryA entryC) (some "a") (some "c")).graph =
      { nodes := [("b", {}), ("c", {})], edges := [("c", "b")] } ∧
    catalogLookup (rename_node (renameState entryA entryC) (some "a") (some "c")).catalog "c" =
      some entryA ∧
    catalogLookup (rename_node (renameState entryA entryC) (some "a") (some "c")).catalog "a" =
      none :=
  C5_rename_preserves_structure entryA entryC

/-! ## Claim C4: drop removes, prunes direct neighbors only, single pass -/

/-- Claim C4: dropping a vertex removes it with its incident edges and then —
only when isolated-node display is disabled — prunes those DIRECT former
neighbors whose degree became 0.  On the graph `a -> b`: dropping `b` with
isolated display disabled leaves the graph empty, and with it enabled leaves
exactly the isolated vertex `a`.  The pass never cascades: any vertex other
than the dropped one that is not one of its direct successors or predecessors
keeps its membership status unchanged. -/
theorem C4_drop_prunes_single_pass (g : DiGraph) (cat : Catalog) (cfg : LineageConfig)
    (node v : String) (hvn : v ≠ node) (hvs : v ∉ successors g node)
    (hvp : v ∉ predecessors g node) :
    hasNode (remove_node ⟨cfg, g, cat⟩ (some node)).graph v = hasNode g v ∧
    (remove_node dropState (some "b")).graph = { nodes := [], edges := [] } ∧
    (remove_node dropStateIso (some "b")).graph =
      { nodes := [("a", ({} : NodeAttrs))], edges := [] } := by
  refine ⟨?_, by decide, by decide⟩
  unfold remove_node
  dsimp only
  by_cases hn : hasNode g node = true
  · rw [if_pos hn]
    by_cases hiso : cfg.show_isolated_nodes = true
    · rw [if_pos hiso]
      exact hasNode_removeVertex_ne g node v hvn
    · rw [if_neg hiso]
      rw [hasNode_pruneIsolated_notMem _ _ _ hvp,
          hasNode_pruneIsolated_notMem _ _ _ hvs,
          hasNode_removeVertex_ne g node v hvn]
  · rw [if_neg hn]

/-- Claim C4, witness: on the chain `a -> b -> c -> d`, the vertex `d` is
neither `b` nor one of `b`'s direct neighbors, and dropping `b` leaves its
membership unchanged; the two concrete drop scenarios are restated. -/
theorem C4_witness :
    ("d" ≠ "b") ∧ ("d" ∉ successors chainGraph "b") ∧
    ("d" ∉ predecessors chainGraph "b") ∧
    (hasNode (remove_node ⟨cfgShort, chainGraph, []⟩ (some "b")).graph "d" =
        hasNode chainGraph "d" ∧
      (remove_node dropState (some "b")).graph = { nodes := [], edges := [] } ∧
      (remove_node dropStateIso (some "b")).graph =
        { nodes := [("a", ({} : NodeAttrs))], edges := [] }) :=
  ⟨by decide, by decide, by decide,
   C4_drop_prunes_single_pass chainGraph [] cfgShort "b" "d"
     (by decide) (by decide) (by decide)⟩

/-! ## Claim C10: pruning deletes only the dropped vertex's catalog entry -/

/-- Claim C10: `_remove_node` deletes at most the dropped vertex's own catalog
entry; every other key — in particular a pruned former neighbor's — is left
untouched, so after a drop the catalog may hold keys for vertices that are no
longer in the graph.  Concretely, dropping `b` from `a -> b` (isolated display
disabled) prunes `a` out of the graph while `a`'s catalog entry survives. -/
theorem C10_prune_keeps_catalog (st : LineageState) (node v : String) (h : v ≠ node) :
    catalogLookup (remove_node st (some node)).catalog v = catalogLookup st.catalog v ∧
    hasNode (remove_node dropState (some "b")).graph "a" = false ∧
    catalogLookup (remove_node dropState (some "b")).catalog "a" = some entryA := by
  refine ⟨?_, by decide, by decide⟩
  unfold remove_node
  dsimp only
  by_cases hn : hasNode st.graph node = true
  · rw [if_pos hn]
    by_cases hcs : (catalogLookup st.catalog node).isSome = true
    · show catalogLookup (if _ then _ else _) v = _
      rw [if_pos hcs]
      exact catalogLookup_erase_ne st.catalog node v h
    · show catalogLookup (if _ then _ else _) v = _
      rw [if_neg hcs]
  · rw [if_neg hn]

/-- Claim C10, witness: the catalog-preservation theorem at the concrete drop
scenario (`v = a`, dropped node `b`). -/
theorem C10_witness :
    ("a" ≠ "b") ∧
    (catalogLookup (remove_node dropState (some "b")).catalog "a" =
        catalogLookup dropState.catalog "a" ∧
      hasNode (remove_node dropState (some "b")).graph "a" = false ∧
      catalogLookup (remove_node dropState (some "b")).catalog "a" = some entryA) :=
  ⟨by decide, C10_prune_keeps_catalog dropState "b" "a" (by decide)⟩

/-! ## Helper lemmas for the freshness overlay -/

theorem hasNode_iff_mem_nodeKeys (g : DiGraph) (v : String) :
    hasNode g v = true ↔ v ∈ nodeKeys g := by
  unfold hasNode nodeKeys
  rw [List.any_eq_true]
  constructor
  · rintro ⟨p, hp, hkey⟩
    exact List.mem_map.mpr ⟨p, hp, (of_decide_eq_true hkey).symm ▸ rfl⟩
  · rintro hm
    rcases List.mem_map.mp hm with ⟨p, hp, hkey⟩
    exact ⟨p, hp, decide_eq_true (by rw [hkey])⟩

theorem hasNode_enrichNode (cat : Catalog) (enc : String → String) (g : DiGraph)
    (m v : String) : hasNode (enrichNode cat enc g m) v = hasNode g v := by
  unfold enrichNode
  rcases catalogLookup cat m with _ | entry
  · rfl
  · dsimp only
    by_cases ha : volumeAnomaly entry.volume = true
    · rw [if_pos ha]
      unfold setTitleAttr setColorAttr
      rw [hasNode_mapAttr, hasNode_mapAttr]
    · rw [if_neg ha]
      unfold setTitleAttr
      rw [hasNode_mapAttr]

theorem getAttrs_enrichNode_ne (cat : Catalog) (enc : String → String) (g : DiGraph)
    (m v : String) (h : v ≠ m) :
    getAttrs (enrichNode cat enc g m) v = getAttrs g v := by
  unfold enrichNode
  rcases catalogLookup cat m with _ | entry
  · rfl
  · dsimp only
    by_cases ha : volumeAnomaly entry.volume = true
    · rw [if_pos ha]
      unfold setTitleAttr setColorAttr
      rw [getAttrs_mapAttr_ne _ _ _ _ h, getAttrs_mapAttr_ne _ _ _ _ h]
    · rw [if_neg ha]
      unfold setTitleAttr
      rw [getAttrs_mapAttr_ne _ _ _ _ h]

theorem getAttrs_enrichNode_self (cat : Catalog) (enc : String → String)
    (g : DiGraph) (node : String) (h : hasNode g node = true) :
    getAttrs (enrichNode cat enc g node) node =
      enrichedAttrs cat enc node (getAttrs g node) := by
  unfold enrichNode enrichedAttrs
  rcases catalogLookup cat node with _ | entry
  · rfl
  · dsimp only
    by_cases ha : volumeAnomaly entry.volume = true
    · rw [if_pos ha, if_pos ha]
      unfold setTitleAttr setColorAttr
      rw [getAttrs_mapAttr_self _ _ _ (by rw [hasNode_mapAttr]; exact h),
          getAttrs_mapAttr_self _ _ _ h]
    · rw [if_neg ha, if_neg ha]
      unfold setTitleAttr
      rw [getAttrs_mapAttr_self _ _ _ h]

theorem enrich_fold_getAttrs (cat : Catalog) (enc : String → String) (node : String) :
    ∀ (l : List (String × NodeAttrs)) (g : DiGraph),
      (l.map Prod.fst).Nodup → hasNode g node = true →
      getAttrs (l.foldl (fun g p => enrichNode cat enc g p.1) g) node =
        if node ∈ l.map Prod.fst then enrichedAttrs cat enc node (getAttrs g node)
        else getAttrs g node := by
  intro l
  induction l with
  | nil => intro g _ _; simp
  | cons p t ih =>
    intro g hnd hn
    rw [List.map_cons, List.nodup_cons] at hnd
    rw [List.foldl_cons]
    by_cases hp : node = p.1
    · subst hp
      rw [ih (enrichNode cat enc g p.1) hnd.2 (by rw [hasNode_enrichNode]; exact hn),
          if_neg hnd.1, getAttrs_enrichNode_self cat enc g p.1 hn,
          if_pos (by rw [List.map_cons]; exact List.mem_cons_self _ _)]
    · rw [ih (enrichNode cat enc g p.1) hnd.2 (by rw [hasNode_enrichNode]; exact hn),
          getAttrs_enrichNode_ne cat enc g p.1 node hp]
      by_cases hm : node ∈ t.map Prod.fst
      · rw [if_pos hm, if_pos (by rw [List.map_cons]; exact List.mem_cons_of_mem _ hm)]
      · rw [if_neg hm, if_neg (by
          rw [List.map_cons]
          intro hc
          rcases List.mem_cons.mp hc with hc1 | hc2
          · exact hp hc1
          · exact hm hc2)]

/-! ## Claim C1: the freshness anomaly decision -/

/-- Claim C1, counterexample: the claim says the anomaly decision compares the
most recent volume against half the median of the LAST UP-TO-THREE samples.
For the history `[10, 10, 100, 100, 40]` the last three samples are
`[100, 100, 40]` with median 100, and `40 < 100 / 2` holds, so the claim
requires the vertex to be marked anomalous — but the code computes the median
over the WHOLE history (`median(node_volumes)` = 40, and `40 < 20` fails), so
the enrichment pass leaves the vertex unmarked (its color stays absent). -/
theorem C1_counterexample :
    volsC1.getLast? = some 40 ∧
    lastUpToThree volsC1 = [100, 100, 40] ∧
    pyMedian (lastUpToThree volsC1) = 100 ∧
    ((40 : ℚ) < 100 / 2) ∧
    (getAttrs (enrich_graph_with_monitoring_context freshState encFixed) "n").color =
      none := by
  refine ⟨rfl, rfl, ?_, by norm_num, ?_⟩
  · norm_num [pyMedian, lastUpToThree, volsC1, sortInts, insertSorted]
  · have hMed : volumeAnomaly volsC1 = false := by
      simp only [volumeAnomaly, volsC1, pyMedian, sortInts, insertSorted, List.foldr]
      norm_num
    simp [enrich_graph_with_monitoring_context, freshState, enrichNode, catalogLookup,
          hMed, setTitleAttr, mapAttr, getAttrs]

/-- Claim C1 (amended): for every vertex present both in the graph and in the
catalog, the enrichment pass decides the anomaly over the vertex's ENTIRE
volume history (not just the last up-to-three samples, which only feed the
chart): the vertex is colored red with the warning block prepended to its
rendered detail exactly when the most recent volume is less than half the
median of the whole history; otherwise its color is untouched and it gets the
plain rendering. -/
theorem C1_freshness_full_history (st : LineageState) (enc : String → String)
    (node : String) (entry : CatalogEntry)
    (hnd : (nodeKeys st.graph).Nodup)
    (hn : hasNode st.graph node = true)
    (hc : catalogLookup st.catalog node = some entry) :
    (volumeAnomaly entry.volume = true →
      getAttrs (enrich_graph_with_monitoring_context st enc) node =
        { color := some "red",
          title := some (warningTitleHtml
            (entry.last_html.getD "" ++ freshnessChartHtml (enc node))) }) ∧
    (volumeAnomaly entry.volume = false →
      getAttrs (enrich_graph_with_monitoring_context st enc) node =
        { color := (getAttrs st.graph node).color,
          title := some (plainTitleHtml
            (entry.last_html.getD "" ++ freshnessChartHtml (enc node))) }) ∧
    (∀ hne : entry.volume ≠ [],
      (volumeAnomaly entry.volume = true ↔
        ((entry.volume.getLast hne : ℚ) < pyMedian entry.volume / 2))) := by
  have hmem : node ∈ st.graph.nodes.map Prod.fst :=
    (hasNode_iff_mem_nodeKeys st.graph node).mp hn
  have hfold :
      getAttrs (enrich_graph_with_monitoring_context st enc) node =
        enrichedAttrs st.catalog enc node (getAttrs st.graph node) := by
    unfold enrich_graph_with_monitoring_context
    rw [enrich_fold_getAttrs st.catalog enc node st.graph.nodes st.graph hnd hn,
        if_pos hmem]
  refine ⟨?_, ?_, ?_⟩
  · intro ha
    rw [hfold]
    unfold enrichedAttrs
    rw [hc]
    dsimp only
    rw [if_pos ha]
  · intro ha
    rw [hfold]
    unfold enrichedAttrs
    rw [hc]
    dsimp only
    rw [if_neg (by rw [ha]; exact Bool.false_ne_true)]
  · intro hne
    unfold volumeAnomaly
    rw [List.getLast?_eq_getLast entry.volume hne]
    dsimp only
    exact decide_eq_true_iff

/-- Claim C1, witness: the amended theorem applied to the single-node state
carrying the spec's anomalous history `[100, 100, 100, 10]`: the enrichment
marks the node red with the warning title. -/
theorem C1_witness :
    ((nodeKeys freshStateAnom.graph).Nodup) ∧
    (hasNode freshStateAnom.graph "m" = true) ∧
    (catalogLookup freshStateAnom.catalog "m" = some entryM) ∧
    getAttrs (enrich_graph_with_monitoring_context freshStateAnom encFixed) "m" =
      { color := some "red",
        title := some (warningTitleHtml
          (entryM.last_html.getD "" ++ freshnessChartHtml (encFixed "m"))) } :=
  ⟨by decide, by decide, by decide,
   (C1_freshness_full_history freshStateAnom encFixed "m" entryM
      (by decide) (by decide) (by decide)).1
     (by
        simp only [volumeAnomaly, entryM, pyMedian, sortInts, insertSorted, List.foldr]
        norm_num)⟩

/-! ## Helper lemmas: the extracted subgraph carries no node attributes -/

theorem allDefault_addNodePlain (g : DiGraph) (n : String)
    (h : ∀ p ∈ g.nodes, p.2 = ({} : NodeAttrs)) :
    ∀ p ∈ (addNodePlain g n).nodes, p.2 = ({} : NodeAttrs) := by
  unfold addNodePlain
  by_cases hn : hasNode g n = true
  · rw [if_pos hn]; exact h
  · rw [if_neg hn]
    intro p hp
    rcases List.mem_append.mp hp with hp | hp
    · exact h p hp
    · rcases List.mem_singleton.mp hp with rfl
      rfl

theorem hasNode_addNodePlain_self (g : DiGraph) (n : String) :
    hasNode (addNodePlain g n) n = true := by
  unfold addNodePlain
  by_cases hn : hasNode g n = true
  · rw [if_pos hn]; exact hn
  · rw [if_neg hn]
    unfold hasNode
    rw [List.any_append]
    simp

theorem hasNode_addNodePlain_mono (g : DiGraph) (n v : String)
    (h : hasNode g v = true) : hasNode (addNodePlain g n) v = true := by
  unfold addNodePlain
  by_cases hn : hasNode g n = true
  · rw [if_pos hn]; exact h
  · rw [if_neg hn]
    unfold hasNode at h ⊢
    rw [List.any_append, h, Bool.true_or]

theorem allDefault_addEdge (g : DiGraph) (s t : String)
    (h : ∀ p ∈ g.nodes, p.2 = ({} : NodeAttrs)) :
    ∀ p ∈ (addEdge g s t).nodes, p.2 = ({} : NodeAttrs) := by
  unfold addEdge
  have h1 := allDefault_addNodePlain _ t (allDefault_addNodePlain g s h)
  by_cases he : (s, t) ∈ (addNodePlain (addNodePlain g s) t).edges
  · rw [if_pos he] at *; exact h1
  · rw [if_neg he]; exact h1

theorem hasNode_addEdge_mono (g : DiGraph) (s t v : String)
    (h : hasNode g v = true) : hasNode (addEdge g s t) v = true := by
  unfold addEdge
  have h1 := hasNode_addNodePlain_mono _ t _ (hasNode_addNodePlain_mono g s v h)
  by_cases he : (s, t) ∈ (addNodePlain (addNodePlain g s) t).edges
  · rw [if_pos he]; exact h1
  · rw [if_neg he]; exact h1

theorem allDefault_addEdgesFrom (l : List (String × String)) (g : DiGraph)
    (h : ∀ p ∈ g.nodes, p.2 = ({} : NodeAttrs)) :
    ∀ p ∈ (addEdgesFrom g l).nodes, p.2 = ({} : NodeAttrs) := by
  induction l generalizing g with
  | nil => exact h
  | cons e t ih => exact ih _ (allDefault_addEdge g e.1 e.2 h)

theorem hasNode_addEdgesFrom_mono (l : List (String × String)) (g : DiGraph)
    (v : String) (h : hasNode g v = true) :
    hasNode (addEdgesFrom g l) v = true := by
  induction l generalizing g with
  | nil => exact h
  | cons e t ih => exact ih _ (hasNode_addEdge_mono g e.1 e.2 v h)

theorem allDefault_bfsTree (g : DiGraph) (source : String) (d : Option Nat) :
    ∀ p ∈ (bfsTree g source d).nodes, p.2 = ({} : NodeAttrs) := by
  unfold bfsTree
  exact allDefault_addEdgesFrom _ _
    (allDefault_addNodePlain emptyDiGraph source (by intro p hp; cases hp))

theorem hasNode_bfsTree_source (g : DiGraph) (source : String) (d : Option Nat) :
    hasNode (bfsTree g source d) source = true := by
  unfold bfsTree
  exact hasNode_addEdgesFrom_mono _ _ _ (hasNode_addNodePlain_self emptyDiGraph source)

theorem allDefault_reverseEdges (g : DiGraph)
    (h : ∀ p ∈ g.nodes, p.2 = ({} : NodeAttrs)) :
    ∀ p ∈ g.reverseEdges.nodes, p.2 = ({} : NodeAttrs) := h

theorem hasNode_reverseEdges (g : DiGraph) (v : String) :
    hasNode g.reverseEdges v = hasNode g v := rfl

theorem allDefault_composeGraphs (g h : DiGraph)
    (hg : ∀ p ∈ g.nodes, p.2 = ({} : NodeAttrs))
    (hh : ∀ p ∈ h.nodes, p.2 = ({} : NodeAttrs)) :
    ∀ p ∈ (composeGraphs g h).nodes, p.2 = ({} : NodeAttrs) := by
  show ∀ p ∈ h.nodes.foldl _ g.nodes, _
  have main :
      ∀ (l : List (String × NodeAttrs)) (ns : List (String × NodeAttrs)),
        (∀ p ∈ l, p.2 = ({} : NodeAttrs)) → (∀ p ∈ ns, p.2 = ({} : NodeAttrs)) →
        ∀ p ∈ l.foldl
          (fun ns p =>
            if ns.any (·.1 = p.1) then
              ns.map (fun q => if q.1 = p.1 then (q.1, q.2.updateWith p.2) else q)
            else ns ++ [p]) ns, p.2 = ({} : NodeAttrs) := by
    intro l
    induction l with
    | nil => intro ns _ hns; exact hns
    | cons x t ih =>
      intro ns hl hns
      rw [List.foldl_cons]
      refine ih _ (fun p hp => hl p (List.mem_cons_of_mem x hp)) ?_
      have hx : x.2 = ({} : NodeAttrs) := hl x (List.mem_cons_self x t)
      by_cases hc : ns.any (·.1 = x.1) = true
      · rw [if_pos hc]
        intro p hp
        rcases List.mem_map.mp hp with ⟨q, hq, hmap⟩
        have hq2 := hns q hq
        by_cases hq1 : q.1 = x.1
        · rw [if_pos hq1] at hmap
          rw [← hmap]
          show NodeAttrs.updateWith q.2 x.2 = _
          rw [hq2, hx]
          rfl
        · rw [if_neg hq1] at hmap
          rw [← hmap]
          exact hq2
      · rw [if_neg hc]
        intro p hp
        rcases List.mem_append.mp hp with hp | hp
        · exact hns p hp
        · rcases List.mem_singleton.mp hp with rfl
          exact hx
  exact main h.nodes g.nodes hh hg

theorem hasNode_composeGraphs_left (g h : DiGraph) (v : String)
    (hv : hasNode g v = true) : hasNode (composeGraphs g h) v = true := by
  show (h.nodes.foldl _ g.nodes).any (·.1 = v) = true
  have main :
      ∀ (l : List (String × NodeAttrs)) (ns : List (String × NodeAttrs)),
        ns.any (·.1 = v) = true →
        (l.foldl
          (fun ns p =>
            if ns.any (·.1 = p.1) then
              ns.map (fun q => if q.1 = p.1 then (q.1, q.2.updateWith p.2) else q)
            else ns ++ [p]) ns).any (·.1 = v) = true := by
    intro l
    induction l with
    | nil => intro ns hns; exact hns
    | cons x t ih =>
      intro ns hns
      rw [List.foldl_cons]
      refine ih _ ?_
      by_cases hc : ns.any (·.1 = x.1) = true
      · rw [if_pos hc]
        rw [any_key_map_update ns x.1 (fun a => a.updateWith x.2) v]
        exact hns
      · rw [if_neg hc, List.any_append, hns, Bool.true_or]
  exact main h.nodes g.nodes hv

theorem getAttrs_of_allDefault (g : DiGraph) (v : String)
    (h : ∀ p ∈ g.nodes, p.2 = ({} : NodeAttrs)) :
    getAttrs g v = ({} : NodeAttrs) := by
  unfold getAttrs
  rcases hf : g.nodes.find? (·.1 = v) with _ | p
  · rw [hf]; rfl
  · rw [hf]
    have hp : p ∈ g.nodes := List.mem_of_find?_eq_some hf
    simp [h p hp]

theorem update_selected_on_default (g : DiGraph) (r : String)
    (h1 : hasNode g r = true) (h2 : getAttrs g r = ({} : NodeAttrs)) :
    getAttrs (update_selected_node_attributes g r) r =
      { color := some SELECTED_NODE_COLOR, title := some SELECTED_NODE_TITLE } := by
  unfold update_selected_node_attributes
  rw [if_pos h1, getAttrs_mapAttr_self _ _ _ h1, h2]
  simp [String.append_empty]

/-! ## Claim C3: selection highlighting and the prior title -/

/-- Claim C3, counterexample: the selected node's display title is NOT
preserved across a successful selection.  In a state whose node `b` carries
the title `t0`, selecting `b` downstream succeeds, but the extraction
(`bfs_tree`) builds a fresh graph without node attributes, so the resulting
title is the bare selection marker rather than the marker prepended to `t0`. -/
theorem C3_counterexample :
    (getAttrs titledState.graph "b").title = some "t0" ∧
    (filter_on_table titledState "b" (some DOWNSTREAM_DIRECTION) none).1 = none ∧
    (getAttrs (filter_on_table titledState "b"
        (some DOWNSTREAM_DIRECTION) none).2.graph "b").title = some SELECTED_NODE_TITLE ∧
    (getAttrs (filter_on_table titledState "b"
        (some DOWNSTREAM_DIRECTION) none).2.graph "b").title ≠
      some (SELECTED_NODE_TITLE ++ "t0") := by
  decide

/-- Claim C3 (amended): after a successful select in any valid direction, the
selected vertex in the result graph carries the highlight color, and its
display title is exactly the selected-node marker: the directional extraction
copies no node attributes into the result graph, so the marker is prepended
to an empty title and the prior title text is lost.  (The hypothesis that the
resolved vertex is present in the graph matches the condition under which the
Python BFS call itself succeeds.) -/
theorem C3_selected_marker_only (st : LineageState) (selected r : String)
    (dir : Option String) (depth : Option Nat)
    (hq : name_qualification st.config (Table.ofString selected)
        (some st.config.profile_database_name) st.config.profile_schema_name = some r)
    (hr : hasNode st.graph r = true)
    (hd : dir = some DOWNSTREAM_DIRECTION ∨ dir = some UPSTREAM_DIRECTION ∨
      dir = some BOTH_DIRECTIONS) :
    (filter_on_table st selected dir depth).1 = none ∧
    getAttrs (filter_on_table st selected dir depth).2.graph r =
      { color := some SELECTED_NODE_COLOR, title := some SELECTED_NODE_TITLE } := by
  have hkeep : hasNode st.graph r = true := hr
  clear hr
  unfold filter_on_table
  rw [hq]
  dsimp only
  rcases hd with rfl | rfl | rfl
  · rw [if_pos rfl]
    exact ⟨rfl, update_selected_on_default _ _
      (hasNode_bfsTree_source st.graph r depth)
      (getAttrs_of_allDefault _ _ (allDefault_bfsTree st.graph r depth))⟩
  · rw [if_neg (by decide), if_pos rfl]
    refine ⟨rfl, update_selected_on_default _ _ ?_ ?_⟩
    · show hasNode (bfsTree st.graph.reverseEdges r depth).reverseEdges r = true
      rw [hasNode_reverseEdges]
      exact hasNode_bfsTree_source _ r depth
    · exact getAttrs_of_allDefault _ _
        (allDefault_reverseEdges _ (allDefault_bfsTree _ r depth))
  · rw [if_neg (by decide), if_neg (by decide), if_pos rfl]
    refine ⟨rfl, update_selected_on_default _ _ ?_ ?_⟩
    · show hasNode (composeGraphs (upstream_graph st.graph r depth)
        (downstream_graph st.graph r depth)) r = true
      apply hasNode_composeGraphs_left
      show hasNode (bfsTree st.graph.reverseEdges r depth).reverseEdges r = true
      rw [hasNode_reverseEdges]
      exact hasNode_bfsTree_source _ r depth
    · exact getAttrs_of_allDefault _ _
        (allDefault_composeGraphs _ _
          (allDefault_reverseEdges _ (allDefault_bfsTree _ r depth))
          (allDefault_bfsTree _ r depth))

/-- Claim C3, witness: the amended theorem on the chain state, selecting `B`
downstream with depth 1: the selected vertex ends with the highlight color
and the bare marker title. -/
theorem C3_witness :
    (name_qualification chainState.config (Table.ofString "B")
        (some chainState.config.profile_database_name)
        chainState.config.profile_schema_name = some "b") ∧
    (hasNode chainState.graph "b" = true) ∧
    ((some DOWNSTREAM_DIRECTION : Option String) = some DOWNSTREAM_DIRECTION ∨
      (some DOWNSTREAM_DIRECTION : Option String) = some UPSTREAM_DIRECTION ∨
      (some DOWNSTREAM_DIRECTION : Option String) = some BOTH_DIRECTIONS) ∧
    ((filter_on_table chainState "B" (some DOWNSTREAM_DIRECTION) (some 1)).1 = none ∧
      getAttrs (filter_on_table chainState "B"
          (some DOWNSTREAM_DIRECTION) (some 1)).2.graph "b" =
        { color := some SELECTED_NODE_COLOR, title := some SELECTED_NODE_TITLE }) :=
  ⟨by decide, by decide, Or.inl rfl,
   C3_selected_marker_only chainState "B" "b" (some DOWNSTREAM_DIRECTION) (some 1)
     (by decide) (by decide) (Or.inl rfl)⟩

/-! ## Claim C9: configuration errors of the selection operation -/

/-- Claim C9: the selection raises `ConfigError` exactly when the supplied
table name does not qualify against the configured profile scope, or when the
direction is none of downstream/upstream/both; the error message echoes the
offending input (the table name, respectively the direction), and in every
error case the engine state is returned unchanged (no graph mutation). -/
theorem C9_selection_config_errors (st : LineageState) (selected : String)
    (dir : Option String) (depth : Option Nat) :
    ((filter_on_table st selected dir depth).1.isSome = true ↔
      (name_qualification st.config (Table.ofString selected)
          (some st.config.profile_database_name) st.config.profile_schema_name = none ∨
        (dir ≠ some DOWNSTREAM_DIRECTION ∧ dir ≠ some UPSTREAM_DIRECTION ∧
          dir ≠ some BOTH_DIRECTIONS))) ∧
    (name_qualification st.config (Table.ofString selected)
        (some st.config.profile_database_name) st.config.profile_schema_name = none →
      filter_on_table st selected dir depth = (some (couldNotResolveMsg selected), st)) ∧
    (∀ r, name_qualification st.config (Table.ofString selected)
        (some st.config.profile_database_name) st.config.profile_schema_name = some r →
      dir ≠ some DOWNSTREAM_DIRECTION → dir ≠ some UPSTREAM_DIRECTION →
      dir ≠ some BOTH_DIRECTIONS →
      filter_on_table st selected dir depth = (some (invalidDirectionMsg dir), st)) := by
  cases hq : name_qualification st.config (Table.ofString selected)
      (some st.config.profile_database_name) st.config.profile_schema_name with
  | none =>
    unfold filter_on_table
    rw [hq]
    refine ⟨⟨fun _ => Or.inl rfl, fun _ => rfl⟩, fun _ => rfl, ?_⟩
    intro r hr
    exact absurd hr (by simp)
  | some r0 =>
    unfold filter_on_table
    rw [hq]
    dsimp only
    by_cases h1 : dir = some DOWNSTREAM_DIRECTION
    · rw [if_pos h1]
      refine ⟨⟨fun hh => by simp at hh, ?_⟩, fun hh => Option.noConfusion hh, ?_⟩
      · rintro (hh | ⟨hd1, _, _⟩)
        · exact Option.noConfusion hh
        · exact absurd h1 hd1
      · intro r _ hd1 _ _
        exact absurd h1 hd1
    · rw [if_neg h1]
      by_cases h2 : dir = some UPSTREAM_DIRECTION
      · rw [if_pos h2]
        refine ⟨⟨fun hh => by simp at hh, ?_⟩, fun hh => Option.noConfusion hh, ?_⟩
        · rintro (hh | ⟨_, hd2, _⟩)
          · exact Option.noConfusion hh
          · exact absurd h2 hd2
        · intro r _ _ hd2 _
          exact absurd h2 hd2
      · rw [if_neg h2]
        by_cases h3 : dir = some BOTH_DIRECTIONS
        · rw [if_pos h3]
          refine ⟨⟨fun hh => by simp at hh, ?_⟩, fun hh => Option.noConfusion hh, ?_⟩
          · rintro (hh | ⟨_, _, hd3⟩)
            · exact Option.noConfusion hh
            · exact absurd h3 hd3
          · intro r _ _ _ hd3
            exact absurd h3 hd3
        · rw [if_neg h3]
          exact ⟨⟨fun _ => Or.inr ⟨h1, h2, h3⟩, fun _ => rfl⟩,
                 fun hh => Option.noConfusion hh, fun _ _ _ _ _ => rfl⟩

/-- Claim C9, witness: on the chain state, the unresolvable name `db9.s.x`
fails with the resolve error echoing the name and leaves the state unchanged;
the invalid direction `sideways` fails with the direction error echoing the
direction and leaves the state unchanged. -/
theorem C9_witness :
    (name_qualification chainState.config (Table.ofString "db9.s.x")
        (some chainState.config.profile_database_name)
        chainState.config.profile_schema_name = none) ∧
    (filter_on_table chainState "db9.s.x" (some DOWNSTREAM_DIRECTION) none =
      (some (couldNotResolveMsg "db9.s.x"), chainState)) ∧
    (name_qualification chainState.config (Table.ofString "B")
        (some chainState.config.profile_database_name)
        chainState.config.profile_schema_name = some "b") ∧
    (filter_on_table chainState "B" (some "sideways") none =
      (some (invalidDirectionMsg (some "sideways")), chainState)) :=
  ⟨by decide,
   (C9_selection_config_errors chainState "db9.s.x"
      (some DOWNSTREAM_DIRECTION) none).2.1 (by decide),
   by decide,
   (C9_selection_config_errors chainState "B" (some "sideways") none).2.2 "b"
     (by decide) (by decide) (by decide) (by decide)⟩

/-! ## Helper lemmas for edge-ingestion idempotence -/

theorem addNodePlain_of_hasNode (g : DiGraph) (n : String)
    (h : hasNode g n = true) : addNodePlain g n = g := by
  unfold addNodePlain
  rw [if_pos h]

theorem edges_addNodePlain (g : DiGraph) (n : String) :
    (addNodePlain g n).edges = g.edges := by
  unfold addNodePlain
  by_cases h : hasNode g n = true
  · rw [if_pos h]
  · rw [if_neg h]

theorem edges_addNodesFrom (l : List String) (g : DiGraph) :
    (addNodesFrom g l).edges = g.edges := by
  induction l generalizing g with
  | nil => rfl
  | cons x t ih =>
    show (addNodesFrom (addNodePlain g x) t).edges = g.edges
    rw [ih, edges_addNodePlain]

theorem hasNode_addNodesFrom_mono (l : List String) (g : DiGraph) (v : String)
    (h : hasNode g v = true) : hasNode (addNodesFrom g l) v = true := by
  induction l generalizing g with
  | nil => exact h
  | cons x t ih => exact ih _ (hasNode_addNodePlain_mono g x v h)

theorem hasNode_addNodesFrom_all (l : List String) (g : DiGraph) :
    ∀ x ∈ l, hasNode (addNodesFrom g l) x = true := by
  induction l generalizing g with
  | nil => intro x hx; cases hx
  | cons y t ih =>
    intro x hx
    rcases List.mem_cons.mp hx with rfl | hx
    · exact hasNode_addNodesFrom_mono t _ x (hasNode_addNodePlain_self g x)
    · exact ih _ x hx

theorem addNodesFrom_of_all_present (l : List String) (g : DiGraph)
    (h : ∀ x ∈ l, hasNode g x = true) : addNodesFrom g l = g := by
  induction l with
  | nil => rfl
  | cons x t ih =>
    show addNodesFrom (addNodePlain g x) t = g
    rw [addNodePlain_of_hasNode g x (h x (List.mem_cons_self x t))]
    exact ih (fun y hy => h y (List.mem_cons_of_mem x hy))

theorem hasNode_congr_keys (g g' : DiGraph) (v : String)
    (h : nodeKeys g = nodeKeys g') : hasNode g v = hasNode g' v := by
  have hiff : hasNode g v = true ↔ hasNode g' v = true := by
    rw [hasNode_iff_mem_nodeKeys, hasNode_iff_mem_nodeKeys, h]
  cases hg : hasNode g v
  · cases hg' : hasNode g' v
    · rfl
    · exact absurd (hiff.mpr hg') (by rw [hg]; exact Bool.false_ne_true)
  · rw [hiff.mp hg]

theorem edges_addNodeTitle (g : DiGraph) (n t : String) :
    (addNodeTitle g n t).edges = g.edges := by
  unfold addNodeTitle
  by_cases h : hasNode g n = true
  · rw [if_pos h]; rfl
  · rw [if_neg h]

theorem nodeKeys_addNodeTitle_of_hasNode (g : DiGraph) (n t : String)
    (h : hasNode g n = true) : nodeKeys (addNodeTitle g n t) = nodeKeys g := by
  unfold addNodeTitle
  rw [if_pos h]
  exact nodeKeys_mapAttr g n _

theorem hasNode_addNodeTitle_mono (g : DiGraph) (n t v : String)
    (h : hasNode g v = true) : hasNode (addNodeTitle g n t) v = true := by
  unfold addNodeTitle
  by_cases hn : hasNode g n = true
  · rw [if_pos hn, hasNode_mapAttr]; exact h
  · rw [if_neg hn]
    unfold hasNode at h ⊢
    rw [List.any_append, h, Bool.true_or]

theorem hasNode_addNodeTitle_self (g : DiGraph) (n t : String) :
    hasNode (addNodeTitle g n t) n = true := by
  unfold addNodeTitle
  by_cases hn : hasNode g n = true
  · rw [if_pos hn, hasNode_mapAttr]; exact hn
  · rw [if_neg hn]
    unfold hasNode
    rw [List.any_append]
    simp

theorem config_addTargetNode (s : LineageState) (t : String) (ctx : QueryContext) :
    (addTargetNode s t ctx).config = s.config := rfl

theorem edges_addTargetNode (s : LineageState) (t : String) (ctx : QueryContext) :
    (addTargetNode s t ctx).graph.edges = s.graph.edges :=
  edges_addNodeTitle s.graph t ctx.html

theorem nodeKeys_addTargetNode_of_hasNode (s : LineageState) (t : String)
    (ctx : QueryContext) (h : hasNode s.graph t = true) :
    nodeKeys (addTargetNode s t ctx).graph = nodeKeys s.graph :=
  nodeKeys_addNodeTitle_of_hasNode s.graph t ctx.html h

theorem hasNode_addTargetNode_mono (s : LineageState) (t v : String)
    (ctx : QueryContext) (h : hasNode s.graph v = true) :
    hasNode (addTargetNode s t ctx).graph v = true :=
  hasNode_addNodeTitle_mono s.graph t ctx.html v h

theorem hasNode_addTargetNode_self (s : LineageState) (t : String)
    (ctx : QueryContext) : hasNode (addTargetNode s t ctx).graph t = true :=
  hasNode_addNodeTitle_self s.graph t ctx.html

theorem config_targetFold (ts : List String) (st : LineageState) (ctx : QueryContext) :
    (ts.foldl (fun s t => addTargetNode s t ctx) st).config = st.config := by
  induction ts generalizing st with
  | nil => rfl
  | cons x t ih =>
    rw [List.foldl_cons, ih, config_addTargetNode]

theorem edges_targetFold (ts : List String) (st : LineageState) (ctx : QueryContext) :
    (ts.foldl (fun s t => addTargetNode s t ctx) st).graph.edges = st.graph.edges := by
  induction ts generalizing st with
  | nil => rfl
  | cons x t ih =>
    rw [List.foldl_cons, ih, edges_addTargetNode]

theorem hasNode_targetFold_mono (ts : List String) (st : LineageState)
    (ctx : QueryContext) (v : String) (h : hasNode st.graph v = true) :
    hasNode (ts.foldl (fun s t => addTargetNode s t ctx) st).graph v = true := by
  induction ts generalizing st with
  | nil => exact h
  | cons x t ih =>
    rw [List.foldl_cons]
    exact ih _ (hasNode_addTargetNode_mono st x v ctx h)

theorem hasNode_targetFold_all (ts : List String) (st : LineageState)
    (ctx : QueryContext) :
    ∀ t ∈ ts, hasNode (ts.foldl (fun s t => addTargetNode s t ctx) st).graph t = true := by
  induction ts generalizing st with
  | nil => intro x hx; cases hx
  | cons y t ih =>
    intro x hx
    rw [List.foldl_cons]
    rcases List.mem_cons.mp hx with rfl | hx
    · exact hasNode_targetFold_mono t _ ctx x (hasNode_addTargetNode_self st x ctx)
    · exact ih _ x hx

theorem nodeKeys_targetFold_of_all_present (ts : List String) (st : LineageState)
    (ctx : QueryContext) (h : ∀ t ∈ ts, hasNode st.graph t = true) :
    nodeKeys (ts.foldl (fun s t => addTargetNode s t ctx) st).graph =
      nodeKeys st.graph := by
  induction ts generalizing st with
  | nil => rfl
  | cons x t ih =>
    rw [List.foldl_cons]
    have hx : hasNode st.graph x = true := h x (List.mem_cons_self x t)
    have hkeys : nodeKeys (addTargetNode st x ctx).graph = nodeKeys st.graph :=
      nodeKeys_addTargetNode_of_hasNode st x ctx hx
    rw [ih _ (fun y hy => by
      rw [hasNode_congr_keys _ st.graph y hkeys]
      exact h y (List.mem_cons_of_mem x hy)), hkeys]

theorem addEdge_of_present (g : DiGraph) (s t : String)
    (hs : hasNode g s = true) (ht : hasNode g t = true)
    (he : (s, t) ∈ g.edges) : addEdge g s t = g := by
  unfold addEdge
  dsimp only
  rw [addNodePlain_of_hasNode g s hs, addNodePlain_of_hasNode g t ht, if_pos he]

theorem edge_mem_addEdge_self (g : DiGraph) (s t : String) :
    (s, t) ∈ (addEdge g s t).edges := by
  unfold addEdge
  dsimp only
  by_cases he : (s, t) ∈ (addNodePlain (addNodePlain g s) t).edges
  · rw [if_pos he]
    rw [edges_addNodePlain, edges_addNodePlain] at he
    rw [edges_addNodePlain, edges_addNodePlain]
    exact he
  · rw [if_neg he]
    show (s, t) ∈ _ ++ [(s, t)]
    exact List.mem_append_right _ (List.mem_singleton.mpr rfl)

theorem edge_mem_addEdge_mono (g : DiGraph) (s t : String) (e : String × String)
    (h : e ∈ g.edges) : e ∈ (addEdge g s t).edges := by
  unfold addEdge
  dsimp only
  by_cases he : (s, t) ∈ (addNodePlain (addNodePlain g s) t).edges
  · rw [if_pos he, edges_addNodePlain, edges_addNodePlain]
    exact h
  · rw [if_neg he]
    show e ∈ _ ++ [(s, t)]
    refine List.mem_append_left _ ?_
    rw [edges_addNodePlain, edges_addNodePlain]
    exact h

theorem hasNode_addEdge_left (g : DiGraph) (s t : String) :
    hasNode (addEdge g s t) s = true := by
  unfold addEdge
  dsimp only
  have h1 : hasNode (addNodePlain (addNodePlain g s) t) s = true :=
    hasNode_addNodePlain_mono _ t s (hasNode_addNodePlain_self g s)
  by_cases he : (s, t) ∈ (addNodePlain (addNodePlain g s) t).edges
  · rw [if_pos he]; exact h1
  · rw [if_neg he]; exact h1

theorem hasNode_addEdge_right (g : DiGraph) (s t : String) :
    hasNode (addEdge g s t) t = true := by
  unfold addEdge
  dsimp only
  have h1 : hasNode (addNodePlain (addNodePlain g s) t) t = true :=
    hasNode_addNodePlain_self _ t
  by_cases he : (s, t) ∈ (addNodePlain (addNodePlain g s) t).edges
  · rw [if_pos he]; exact h1
  · rw [if_neg he]; exact h1

theorem hasNode_edgeFold_mono (pairs : List (String × String)) (g : DiGraph)
    (v : String) (h : hasNode g v = true) :
    hasNode (pairs.foldl (fun g p => addEdge g p.1 p.2) g) v = true := by
  induction pairs generalizing g with
  | nil => exact h
  | cons q t ih =>
    rw [List.foldl_cons]
    exact ih _ (hasNode_addEdge_mono g q.1 q.2 v h)

theorem edge_mem_edgeFold_mono (pairs : List (String × String)) (g : DiGraph)
    (e : String × String) (h : e ∈ g.edges) :
    e ∈ (pairs.foldl (fun g p => addEdge g p.1 p.2) g).edges := by
  induction pairs generalizing g with
  | nil => exact h
  | cons q t ih =>
    rw [List.foldl_cons]
    exact ih _ (edge_mem_addEdge_mono g q.1 q.2 e h)

theorem edge_mem_edgeFold_all (pairs : List (String × String)) (g : DiGraph) :
    ∀ p ∈ pairs, p ∈ (pairs.foldl (fun g p => addEdge g p.1 p.2) g).edges := by
  induction pairs generalizing g with
  | nil => intro p hp; cases hp
  | cons q t ih =>
    intro p hp
    rw [List.foldl_cons]
    rcases List.mem_cons.mp hp with rfl | hp
    · exact edge_mem_edgeFold_mono t _ p (by
        rcases p with ⟨a, b⟩
        exact edge_mem_addEdge_self g a b)
    · exact ih _ p hp

theorem edgeFold_of_all_present (pairs : List (String × String)) (g : DiGraph)
    (h : ∀ p ∈ pairs, hasNode g p.1 = true ∧ hasNode g p.2 = true ∧ p ∈ g.edges) :
    pairs.foldl (fun g p => addEdge g p.1 p.2) g = g := by
  induction pairs with
  | nil => rfl
  | cons q t ih =>
    rw [List.foldl_cons]
    rcases h q (List.mem_cons_self q t) with ⟨hs, ht, he⟩
    rw [addEdge_of_present g q.1 q.2 hs ht he]
    exact ih (fun p hp => h p (List.mem_cons_of_mem q hp))

theorem addNE_both_pass_facts (s : LineageState) (ss ts : List String)
    (ctx : QueryContext)
    (hA : ¬ (ss.isEmpty = true ∧ ts.isEmpty = true))
    (hB : ¬ (ss.length > 0 ∧ ts.length = 0))
    (hC : ¬ (ts.length > 0 ∧ ss.length = 0)) :
    (∀ x ∈ ss, hasNode (add_nodes_and_edges_filtered s ss ts ctx).graph x = true) ∧
    (∀ t ∈ ts, hasNode (add_nodes_and_edges_filtered s ss ts ctx).graph t = true) ∧
    (∀ p ∈ ss.product ts, p ∈ (add_nodes_and_edges_filtered s ss ts ctx).graph.edges) := by
  unfold add_nodes_and_edges_filtered
  rw [if_neg hA, if_neg hB, if_neg hC]
  dsimp only
  refine ⟨?_, ?_, ?_⟩
  · intro x hx
    apply hasNode_edgeFold_mono
    apply hasNode_targetFold_mono
    exact hasNode_addNodesFrom_all ss s.graph x hx
  · intro t ht
    apply hasNode_edgeFold_mono
    exact hasNode_targetFold_all ts _ ctx t ht
  · intro p hp
    exact edge_mem_edgeFold_all _ _ p hp

theorem addNE_both_pass_preserves (s1 : LineageState) (ss ts : List String)
    (ctx : QueryContext)
    (hA : ¬ (ss.isEmpty = true ∧ ts.isEmpty = true))
    (hB : ¬ (ss.length > 0 ∧ ts.length = 0))
    (hC : ¬ (ts.length > 0 ∧ ss.length = 0))
    (ha : ∀ x ∈ ss, hasNode s1.graph x = true)
    (hb : ∀ t ∈ ts, hasNode s1.graph t = true)
    (hc : ∀ p ∈ ss.product ts, p ∈ s1.graph.edges) :
    nodeKeys (add_nodes_and_edges_filtered s1 ss ts ctx).graph = nodeKeys s1.graph ∧
    (add_nodes_and_edges_filtered s1 ss ts ctx).graph.edges = s1.graph.edges := by
  unfold add_nodes_and_edges_filtered
  rw [if_neg hA, if_neg hB, if_neg hC]
  dsimp only
  rw [addNodesFrom_of_all_present ss s1.graph ha]
  have hEta : ({ s1 with graph := s1.graph } : LineageState) = s1 := rfl
  rw [hEta]
  have hkeysT : nodeKeys (ts.foldl (fun s t => addTargetNode s t ctx) s1).graph =
      nodeKeys s1.graph :=
    nodeKeys_targetFold_of_all_present ts s1 ctx hb
  have hedgesT : (ts.foldl (fun s t => addTargetNode s t ctx) s1).graph.edges =
      s1.graph.edges :=
    edges_targetFold ts s1 ctx
  have hfold : (ss.product ts).foldl (fun g p => addEdge g p.1 p.2)
      (ts.foldl (fun s t => addTargetNode s t ctx) s1).graph =
      (ts.foldl (fun s t => addTargetNode s t ctx) s1).graph := by
    apply edgeFold_of_all_present
    intro p hp
    rcases p with ⟨a, b⟩
    have hab := List.pair_mem_product.mp hp
    refine ⟨?_, ?_, ?_⟩
    · rw [hasNode_congr_keys _ s1.graph a hkeysT]
      exact ha a hab.1
    · rw [hasNode_congr_keys _ s1.graph b hkeysT]
      exact hb b hab.2
    · rw [hedgesT]
      exact hc (a, b) hp
  rw [hfold]
  exact ⟨hkeysT, hedgesT⟩

theorem addNE_filtered_idem (st : LineageState) (ss ts : List String)
    (ctx : QueryContext) :
    nodeKeys (add_nodes_and_edges_filtered
        (add_nodes_and_edges_filtered st ss ts ctx) ss ts ctx).graph =
      nodeKeys (add_nodes_and_edges_filtered st ss ts ctx).graph ∧
    (add_nodes_and_edges_filtered
        (add_nodes_and_edges_filtered st ss ts ctx) ss ts ctx).graph.edges =
      (add_nodes_and_edges_filtered st ss ts ctx).graph.edges := by
  by_cases hA : ss.isEmpty = true ∧ ts.isEmpty = true
  · have estep : ∀ s : LineageState, add_nodes_and_edges_filtered s ss ts ctx = s := by
      intro s
      unfold add_nodes_and_edges_filtered
      rw [if_pos hA]
    rw [estep, estep]
    exact ⟨rfl, rfl⟩
  · by_cases hB : ss.length > 0 ∧ ts.length = 0
    · have estep : ∀ s : LineageState, add_nodes_and_edges_filtered s ss ts ctx =
          if s.config.show_isolated_nodes = true then
            { s with graph := addNodesFrom s.graph ss } else s := by
        intro s
        unfold add_nodes_and_edges_filtered
        rw [if_neg hA, if_pos hB]
      by_cases hIso : st.config.show_isolated_nodes = true
      · have e1 : add_nodes_and_edges_filtered st ss ts ctx =
            { st with graph := addNodesFrom st.graph ss } := by
          rw [estep st, if_pos hIso]
        have e2 : add_nodes_and_edges_filtered
            ({ st with graph := addNodesFrom st.graph ss }) ss ts ctx =
            { st with graph := addNodesFrom st.graph ss } := by
          rw [estep _,
              if_pos (hIso :
                ({ st with graph := addNodesFrom st.graph ss } :
                  LineageState).config.show_isolated_nodes = true)]
          rw [show addNodesFrom
              ({ st with graph := addNodesFrom st.graph ss } : LineageState).graph ss =
              addNodesFrom st.graph ss from
            addNodesFrom_of_all_present ss _ (hasNode_addNodesFrom_all ss st.graph)]
        rw [e1, e2]
        exact ⟨rfl, rfl⟩
      · have e1 : add_nodes_and_edges_filtered st ss ts ctx = st := by
          rw [estep st, if_neg hIso]
        rw [e1, e1]
        exact ⟨rfl, rfl⟩
    · by_cases hC : ts.length > 0 ∧ ss.length = 0
      · have estep : ∀ s : LineageState, add_nodes_and_edges_filtered s ss ts ctx =
            if s.config.show_isolated_nodes = true then
              ts.foldl (fun s t => addTargetNode s t ctx) s else s := by
          intro s
          unfold add_nodes_and_edges_filtered
          rw [if_neg hA, if_neg hB, if_pos hC]
        by_cases hIso : st.config.show_isolated_nodes = true
        · have e1 : add_nodes_and_edges_filtered st ss ts ctx =
              ts.foldl (fun s t => addTargetNode s t ctx) st := by
            rw [estep st, if_pos hIso]
          have hIso' : (ts.foldl (fun s t => addTargetNode s t ctx)
              st).config.show_isolated_nodes = true := by
            rw [config_targetFold ts st ctx]
            exact hIso
          have e2 : add_nodes_and_edges_filtered
              (ts.foldl (fun s t => addTargetNode s t ctx) st) ss ts ctx =
              ts.foldl (fun s t => addTargetNode s t ctx)
                (ts.foldl (fun s t => addTargetNode s t ctx) st) := by
            rw [estep _, if_pos hIso']
          rw [e1, e2]
          exact ⟨nodeKeys_targetFold_of_all_present ts _ ctx
              (hasNode_targetFold_all ts st ctx),
            edges_targetFold ts _ ctx⟩
        · have e1 : add_nodes_and_edges_filtered st ss ts ctx = st := by
            rw [estep st, if_neg hIso]
          rw [e1, e1]
          exact ⟨rfl, rfl⟩
      · rcases addNE_both_pass_facts st ss ts ctx hA hB hC with ⟨ha, hb, hc⟩
        exact addNE_both_pass_preserves (add_nodes_and_edges_filtered st ss ts ctx)
          ss ts ctx hA hB hC ha hb hc

/-! ## Claim C8: edge-ingestion idempotence -/

/-- Claim C8: ingesting the same write statement's qualified source/target
sets twice in a row yields the same vertex set and the same edge set as
ingesting it once — re-adding present vertices only rewrites their attribute
dicts and re-adding present edges is a no-op (the catalog, by contrast, does
append a second sample; the claim is about the graph structure). -/
theorem C8_edge_ingestion_idempotent (st : LineageState)
    (sources targets : List (Option String)) (ctx : QueryContext) :
    nodeKeys (add_nodes_and_edges
        (add_nodes_and_edges st sources targets ctx) sources targets ctx).graph =
      nodeKeys (add_nodes_and_edges st sources targets ctx).graph ∧
    (add_nodes_and_edges
        (add_nodes_and_edges st sources targets ctx) sources targets ctx).graph.edges =
      (add_nodes_and_edges st sources targets ctx).graph.edges := by
  unfold add_nodes_and_edges
  exact addNE_filtered_idem st (sources.filterMap id) (targets.filterMap id) ctx

/-- Claim C8, witness: double ingestion of the statement writing `t1` from
sources `s1` and an excluded (`None`) entry, on the drop-scenario state. -/
theorem C8_witness :
    nodeKeys (add_nodes_and_edges
        (add_nodes_and_edges dropState [some "s1", none] [some "t1"]
          { query_volume := 5, query_time_str := "t", html := "h" })
        [some "s1", none] [some "t1"]
        { query_volume := 5, query_time_str := "t", html := "h" }).graph =
      nodeKeys (add_nodes_and_edges dropState [some "s1", none] [some "t1"]
        { query_volume := 5, query_time_str := "t", html := "h" }).graph ∧
    (add_nodes_and_edges
        (add_nodes_and_edges dropState [some "s1", none] [some "t1"]
          { query_volume := 5, query_time_str := "t", html := "h" })
        [some "s1", none] [some "t1"]
        { query_volume := 5, query_time_str := "t", html := "h" }).graph.edges =
      (add_nodes_and_edges dropState [some "s1", none] [some "t1"]
        { query_volume := 5, query_time_str := "t", html := "h" }).graph.edges :=
  C8_edge_ingestion_idempotent dropState [some "s1", none] [some "t1"]
    { query_volume := 5, query_time_str := "t", html := "h" }
